import Mathlib

/-!
# MathGeoLib `float4_neon.h`: 4-wide vector operations

A shallow embedding of `src/Math/float4_neon.h`.  The file has two
preprocessor branches, `MATH_SSE` and `MATH_NEON`; a function that branches
takes the selected `Backend` as its first argument.  Lanes are values of an
arbitrary type `α` carrying the arithmetic the function needs, so every
definition can be run on `ℚ` and reasoned about on `ℝ` ("exact arithmetic"),
and the square-root family also on `binary32`, the rounded lane arithmetic.
The hardware estimate instructions (`_mm_rcp_ps`, `vrecpeq_f32`,
`_mm_rsqrt_ps`, `vrsqrteq_f32`) are not given by the source: the per-lane
estimate is a parameter (`rcpe`, `rsqrte`) of every function that uses one.
-/

namespace MathGeoLib

/-- Backend selected at build time: the `MATH_SSE` or the `MATH_NEON` branch. -/
inductive Backend where
  | sse
  | neon
  deriving DecidableEq, Repr

/-- A `simd4f` register: four packed lanes in the order (x, y, z, w). -/
@[ext]
structure simd4f (α : Type) where
  x : α
  y : α
  z : α
  w : α
  deriving DecidableEq, Repr

/-- A `float32x2_t` register: two packed lanes. -/
@[ext]
structure float32x2_t (α : Type) where
  e0 : α
  e1 : α
  deriving DecidableEq, Repr

/-- Lane `n` of a register (lane 0 = x, ..., lane 3 = w). -/
def simd4f.lane {α : Type} (v : simd4f α) : Fin 4 → α
  | 0 => v.x
  | 1 => v.y
  | 2 => v.z
  | 3 => v.w

/-- Apply a per-lane function to the four lanes. -/
def simd4f.map {α : Type} (f : α → α) (v : simd4f α) : simd4f α :=
  ⟨f v.x, f v.y, f v.z, f v.w⟩

/-- Combine two registers lane by lane. -/
def simd4f.zipWith {α : Type} (f : α → α → α) (a b : simd4f α) : simd4f α :=
  ⟨f a.x b.x, f a.y b.y, f a.z b.z, f a.w b.w⟩

/-! ## SSE intrinsics -/

/-- Intrinsic `_mm_set1_ps`: broadcast a scalar to all four lanes. -/
def _mm_set1_ps {α : Type} (f : α) : simd4f α := ⟨f, f, f, f⟩

/-- Intrinsic `_mm_add_ps`: lane-wise sum. -/
def _mm_add_ps {α : Type} [Add α] (a b : simd4f α) : simd4f α := simd4f.zipWith (· + ·) a b

/-- Intrinsic `_mm_sub_ps`: lane-wise difference. -/
def _mm_sub_ps {α : Type} [Sub α] (a b : simd4f α) : simd4f α := simd4f.zipWith (· - ·) a b

/-- Intrinsic `_mm_mul_ps`: lane-wise product. -/
def _mm_mul_ps {α : Type} [Mul α] (a b : simd4f α) : simd4f α := simd4f.zipWith (· * ·) a b

/-- Intrinsic `_mm_div_ps`: the native lane-wise divide. -/
def _mm_div_ps {α : Type} [Div α] (a b : simd4f α) : simd4f α := simd4f.zipWith (· / ·) a b

/-- Intrinsic `_mm_rcp_ps`: the native per-lane reciprocal estimate `rcpe`. -/
def _mm_rcp_ps {α : Type} (rcpe : α → α) (a : simd4f α) : simd4f α := a.map rcpe

/-- Intrinsic `_mm_rsqrt_ps`: the native per-lane reciprocal-square-root estimate `rsqrte`. -/
def _mm_rsqrt_ps {α : Type} (rsqrte : α → α) (a : simd4f α) : simd4f α := a.map rsqrte

/-- Modelled from the spec: the macro `M128_TO_FLOAT` is defined outside
`float4_neon.h`; the spec describes `SIMD4F_TO_FLOAT` as the per-backend
lane-extract-to-scalar, and the NEON branch extracts lane 0. -/
def M128_TO_FLOAT {α : Type} (vec : simd4f α) : α := vec.x

/-! ## NEON intrinsics -/

/-- Intrinsic `vdupq_n_f32`: broadcast a scalar to all four lanes. -/
def vdupq_n_f32 {α : Type} (f : α) : simd4f α := ⟨f, f, f, f⟩

/-- Intrinsic `vaddq_f32`: lane-wise sum. -/
def vaddq_f32 {α : Type} [Add α] (a b : simd4f α) : simd4f α := simd4f.zipWith (· + ·) a b

/-- Intrinsic `vsubq_f32`: lane-wise difference. -/
def vsubq_f32 {α : Type} [Sub α] (a b : simd4f α) : simd4f α := simd4f.zipWith (· - ·) a b

/-- Intrinsic `vmulq_f32`: lane-wise product. -/
def vmulq_f32 {α : Type} [Mul α] (a b : simd4f α) : simd4f α := simd4f.zipWith (· * ·) a b

/-- Intrinsic `vrecpeq_f32`: the native per-lane reciprocal estimate `rcpe`. -/
def vrecpeq_f32 {α : Type} (rcpe : α → α) (a : simd4f α) : simd4f α := a.map rcpe

/-- Intrinsic `vrecpsq_f32`: the reciprocal step, `2 - a*b` per lane. -/
def vrecpsq_f32 {α : Type} [Field α] (a b : simd4f α) : simd4f α :=
  simd4f.zipWith (fun p q => 2 - p * q) a b

/-- Intrinsic `vrsqrteq_f32`: the native per-lane reciprocal-square-root estimate `rsqrte`. -/
def vrsqrteq_f32 {α : Type} (rsqrte : α → α) (a : simd4f α) : simd4f α := a.map rsqrte

/-- Intrinsic `vrsqrtsq_f32`: the reciprocal-square-root step, `(3 - a*b)/2` per lane. -/
def vrsqrtsq_f32 {α : Type} [Sub α] [Mul α] [Div α] [OfNat α (nat_lit 2)] [OfNat α (nat_lit 3)]
    (a b : simd4f α) : simd4f α :=
  simd4f.zipWith (fun p q => (3 - p * q) / 2) a b

/-- Intrinsic `vget_low_f32`: lanes (x, y). -/
def vget_low_f32 {α : Type} (v : simd4f α) : float32x2_t α := ⟨v.x, v.y⟩

/-- Intrinsic `vget_high_f32`: lanes (z, w). -/
def vget_high_f32 {α : Type} (v : simd4f α) : float32x2_t α := ⟨v.z, v.w⟩

/-- Intrinsic `vadd_f32`: lane-wise sum of two 2-lane registers. -/
def vadd_f32 {α : Type} [Add α] (a b : float32x2_t α) : float32x2_t α :=
  ⟨a.e0 + b.e0, a.e1 + b.e1⟩

/-- Intrinsic `vpadd_f32`: pairwise add, (a0 + a1, b0 + b1). -/
def vpadd_f32 {α : Type} [Add α] (a b : float32x2_t α) : float32x2_t α :=
  ⟨a.e0 + a.e1, b.e0 + b.e1⟩

/-- Intrinsic `vget_lane_f32`: extract one lane of a 2-lane register. -/
def vget_lane_f32 {α : Type} (v : float32x2_t α) : Fin 2 → α
  | 0 => v.e0
  | 1 => v.e1

/-- Intrinsic `vsetq_lane_f32`: a copy of `vec` with lane `lane` replaced by `f`. -/
def vsetq_lane_f32 {α : Type} (f : α) (vec : simd4f α) : Fin 4 → simd4f α
  | 0 => { vec with x := f }
  | 1 => { vec with y := f }
  | 2 => { vec with z := f }
  | 3 => { vec with w := f }

/-! ## Arithmetic primitives (source lines 23-141) -/

/-- Source `vec4_add_float`. -/
def vec4_add_float {α : Type} [Add α] (bk : Backend) (vec : simd4f α) (f : α) : simd4f α :=
  match bk with
  | .sse => _mm_add_ps vec (_mm_set1_ps f)
  | .neon => vaddq_f32 vec (vdupq_n_f32 f)

/-- Source `vec4_add_vec4`. -/
def vec4_add_vec4 {α : Type} [Add α] (bk : Backend) (vec vec2 : simd4f α) : simd4f α :=
  match bk with
  | .sse => _mm_add_ps vec vec2
  | .neon => vaddq_f32 vec vec2

/-- Source `vec4_sub_float`. -/
def vec4_sub_float {α : Type} [Sub α] (bk : Backend) (vec : simd4f α) (f : α) : simd4f α :=
  match bk with
  | .sse => _mm_sub_ps vec (_mm_set1_ps f)
  | .neon => vsubq_f32 vec (vdupq_n_f32 f)

/-- Source `float_sub_vec4`. -/
def float_sub_vec4 {α : Type} [Sub α] (bk : Backend) (f : α) (vec : simd4f α) : simd4f α :=
  match bk with
  | .sse => _mm_sub_ps (_mm_set1_ps f) vec
  | .neon => vsubq_f32 (vdupq_n_f32 f) vec

/-- Source `vec4_sub_vec4`. -/
def vec4_sub_vec4 {α : Type} [Sub α] (bk : Backend) (vec vec2 : simd4f α) : simd4f α :=
  match bk with
  | .sse => _mm_sub_ps vec vec2
  | .neon => vsubq_f32 vec vec2

/-- Source `vec4_mul_float`. -/
def vec4_mul_float {α : Type} [Mul α] (bk : Backend) (vec : simd4f α) (f : α) : simd4f α :=
  match bk with
  | .sse => _mm_mul_ps vec (_mm_set1_ps f)
  | .neon => vmulq_f32 vec (vdupq_n_f32 f)

/-- Source `vec4_mul_vec4`. -/
def vec4_mul_vec4 {α : Type} [Mul α] (bk : Backend) (vec vec2 : simd4f α) : simd4f α :=
  match bk with
  | .sse => _mm_mul_ps vec vec2
  | .neon => vmulq_f32 vec vec2

/-- Source `vec4_div_float`. -/
def vec4_div_float {α : Type} [Field α] (bk : Backend) (rcpe : α → α)
    (vec : simd4f α) (f : α) : simd4f α :=
  match bk with
  | .sse => _mm_div_ps vec (_mm_set1_ps f)
  | .neon =>
    let v := vdupq_n_f32 f
    let rcp := vrecpeq_f32 rcpe v
    let rcp := vmulq_f32 (vrecpsq_f32 v rcp) rcp
    let rcp := vmulq_f32 (vrecpsq_f32 v rcp) rcp
    vmulq_f32 vec rcp

/-- Source `float_div_vec4`. -/
def float_div_vec4 {α : Type} [Field α] (bk : Backend) (rcpe : α → α)
    (f : α) (vec : simd4f α) : simd4f α :=
  match bk with
  | .sse => _mm_div_ps (_mm_set1_ps f) vec
  | .neon =>
    let rcp := vrecpeq_f32 rcpe vec
    let rcp := vmulq_f32 (vrecpsq_f32 vec rcp) rcp
    let rcp := vmulq_f32 (vrecpsq_f32 vec rcp) rcp
    vmulq_f32 (vdupq_n_f32 f) rcp

/-- Source `vec4_recip`.  SSE: `2*e - x*e^2` once; NEON: two `vrecpsq_f32` steps. -/
def vec4_recip {α : Type} [Field α] (bk : Backend) (rcpe : α → α) (vec : simd4f α) : simd4f α :=
  match bk with
  | .sse =>
    let e := _mm_rcp_ps rcpe vec
    _mm_sub_ps (_mm_add_ps e e) (_mm_mul_ps vec (_mm_mul_ps e e))
  | .neon =>
    let rcp := vrecpeq_f32 rcpe vec
    let rcp := vmulq_f32 (vrecpsq_f32 vec rcp) rcp
    let rcp := vmulq_f32 (vrecpsq_f32 vec rcp) rcp
    rcp

/-- Source `vec4_div_vec4`. -/
def vec4_div_vec4 {α : Type} [Field α] (bk : Backend) (rcpe : α → α)
    (vec vec2 : simd4f α) : simd4f α :=
  match bk with
  | .sse => _mm_div_ps vec vec2
  | .neon =>
    let rcp := vrecpeq_f32 rcpe vec2
    let rcp := vmulq_f32 (vrecpsq_f32 vec2 rcp) rcp
    let rcp := vmulq_f32 (vrecpsq_f32 vec2 rcp) rcp
    vmulq_f32 vec rcp

/-! ## Byte-table lane permutation (source lines 143-176)

For the permutation a register is viewed through its bits: a lane is the
32-bit pattern of its float, a natural number below `2^32`, and the register
occupies 16 bytes with lane `n` in bytes `4n .. 4n+3`, least significant byte
first. -/

/-- A `uint8_t` value, kept as a natural number reduced modulo 256 where the
source narrows. -/
abbrev uint8_t := Nat

/-- A `uint8x8_t` register: eight bytes, index 0 at the lowest address. -/
abbrev uint8x8_t := List uint8_t

/-- A `uint8x8x2_t` value: the pair `val[0]`, `val[1]` of eight-byte registers. -/
structure uint8x8x2_t where
  val0 : uint8x8_t
  val1 : uint8x8_t
  deriving DecidableEq, Repr

/-- The four bytes of a 32-bit lane, least significant first. -/
def laneBytes (n : Nat) : List uint8_t :=
  [n % 256, n / 256 % 256, n / 65536 % 256, n / 16777216 % 256]

/-- The 32-bit lane stored in the four bytes at offset `off` of `bs`. -/
def laneOfBytes (bs : List uint8_t) (off : Nat) : Nat :=
  bs.getD off 0 + 256 * bs.getD (off + 1) 0 + 65536 * bs.getD (off + 2) 0
    + 16777216 * bs.getD (off + 3) 0

/-- The reinterpreting read `*(uint8x8x2_t*)&vec` of a register as 16 bytes. -/
def simd4f_as_bytes (vec : simd4f Nat) : uint8x8x2_t :=
  ⟨laneBytes vec.x ++ laneBytes vec.y, laneBytes vec.z ++ laneBytes vec.w⟩

/-- The reinterpreting read `*(simd4f*)&dst` of 16 bytes as a register. -/
def bytes_as_simd4f (b : uint8x8x2_t) : simd4f Nat :=
  ⟨laneOfBytes b.val0 0, laneOfBytes b.val0 4, laneOfBytes b.val1 0, laneOfBytes b.val1 4⟩

/-- Intrinsic `vld1_u8`: load eight consecutive bytes starting at `data + off`. -/
def vld1_u8 (data : List uint8_t) (off : Nat) : uint8x8_t := (data.drop off).take 8

/-- Intrinsic `vtbl2_u8`: per index byte, the byte of the 16-byte table at
that index, or 0 when the index is 16 or more. -/
def vtbl2_u8 (table : uint8x8x2_t) (idx : uint8x8_t) : uint8x8_t :=
  idx.map (fun n => if n < 16 then (table.val0 ++ table.val1).getD n 0 else 0)

/-- The conversion `(uint8_t)i` of an `int`. -/
def to_uint8 (i : Int) : uint8_t := (i % 256).toNat

/-- The initializer `(uint8_t)i << 2` narrowed to `const uint8_t`. -/
def index_base (i : Int) : uint8_t := (to_uint8 i <<< 2) % 256

/-- Source `vec4_permute`, `MATH_NEON` branch. -/
def vec4_permute (vec : simd4f Nat) (i j k l : Int) : simd4f Nat :=
  let I := index_base i
  let J := index_base j
  let K := index_base k
  let L := index_base l
  let indexData : List uint8_t :=
    [I, (I+1) % 256, (I+2) % 256, (I+3) % 256, J, (J+1) % 256, (J+2) % 256, (J+3) % 256,
     K, (K+1) % 256, (K+2) % 256, (K+3) % 256, L, (L+1) % 256, (L+2) % 256, (L+3) % 256]
  let indices : uint8x8x2_t := ⟨vld1_u8 indexData 0, vld1_u8 indexData 8⟩
  let src := simd4f_as_bytes vec
  let dst : uint8x8x2_t := ⟨vtbl2_u8 src indices.val0, vtbl2_u8 src indices.val1⟩
  bytes_as_simd4f dst

/-! ## Horizontal reductions (source lines 178-232, `MATH_NEON`) -/

/-- Source `sum_xyzw_float`. -/
def sum_xyzw_float {α : Type} [Add α] (vec : simd4f α) : α :=
  let r := vadd_f32 (vget_high_f32 vec) (vget_low_f32 vec)
  vget_lane_f32 (vpadd_f32 r r) 0

/-- Source `sum_xyz_float`. -/
def sum_xyz_float {α : Type} [Add α] [Zero α] (vec : simd4f α) : α :=
  sum_xyzw_float (vsetq_lane_f32 0 vec 3)

/-- Source `dot4_float`. -/
def dot4_float {α : Type} [Add α] [Mul α] (a b : simd4f α) : α :=
  let mul := vmulq_f32 a b
  sum_xyzw_float mul

/-- Source `dot3_float`. -/
def dot3_float {α : Type} [Add α] [Mul α] [Zero α] (a b : simd4f α) : α :=
  let mul := vmulq_f32 a b
  sum_xyz_float mul

/-- Source `dot4_ps`. -/
def dot4_ps {α : Type} [Add α] [Mul α] (a b : simd4f α) : simd4f α :=
  vdupq_n_f32 (dot4_float a b)

/-- Source `dot3_ps`. -/
def dot3_ps {α : Type} [Add α] [Mul α] [Zero α] (a b : simd4f α) : simd4f α :=
  vdupq_n_f32 (dot3_float a b)

/-- Source `vec4_length_sq_float`. -/
def vec4_length_sq_float {α : Type} [Add α] [Mul α] (vec : simd4f α) : α :=
  dot4_float vec vec

/-- Source `vec4_length_sq_ps`. -/
def vec4_length_sq_ps {α : Type} [Add α] [Mul α] (vec : simd4f α) : simd4f α :=
  dot4_ps vec vec

/-- Source `vec3_length_sq_float`. -/
def vec3_length_sq_float {α : Type} [Add α] [Mul α] [Zero α] (vec : simd4f α) : α :=
  dot3_float vec vec

/-- Source `vec3_length_sq_ps`. -/
def vec3_length_sq_ps {α : Type} [Add α] [Mul α] [Zero α] (vec : simd4f α) : simd4f α :=
  dot3_ps vec vec

/-! ## Square roots, lengths, normalisation (source lines 234-289)

`dot4_ps` and `dot3_ps` are defined by this file under `MATH_NEON`; the
functions below call them on either backend. -/

/-- Source macro `SIMD4F_TO_FLOAT`. -/
def SIMD4F_TO_FLOAT {α : Type} (bk : Backend) (vec : simd4f α) : α :=
  match bk with
  | .neon => vget_lane_f32 (vget_low_f32 vec) 0
  | .sse => M128_TO_FLOAT vec

/-- Source macro `mul_ps`. -/
def mul_ps {α : Type} [Mul α] (bk : Backend) (vec vec2 : simd4f α) : simd4f α :=
  match bk with
  | .neon => vmulq_f32 vec vec2
  | .sse => _mm_mul_ps vec vec2

/-- Source macro `sub_ps`. -/
def sub_ps {α : Type} [Sub α] (bk : Backend) (vec vec2 : simd4f α) : simd4f α :=
  match bk with
  | .neon => vsubq_f32 vec vec2
  | .sse => _mm_sub_ps vec vec2

/-- Source `vec4_rsqrt`.  SSE: `e + 0.5*(e - x*e^3)`; NEON: one `vrsqrtsq_f32` step. -/
def vec4_rsqrt {α : Type} [Add α] [Sub α] [Mul α] [Div α]
    [OfNat α (nat_lit 1)] [OfNat α (nat_lit 2)] [OfNat α (nat_lit 3)]
    (bk : Backend) (rsqrte : α → α) (vec : simd4f α) : simd4f α :=
  match bk with
  | .sse =>
    let e := _mm_rsqrt_ps rsqrte vec
    let e3 := _mm_mul_ps (_mm_mul_ps e e) e
    _mm_add_ps e (_mm_mul_ps (_mm_set1_ps (1 / 2)) (_mm_sub_ps e (_mm_mul_ps vec e3)))
  | .neon =>
    let r := vrsqrteq_f32 rsqrte vec
    vmulq_f32 (vrsqrtsq_f32 (vmulq_f32 r r) vec) r

/-- Source `vec4_sqrt`. -/
def vec4_sqrt {α : Type} [Add α] [Sub α] [Mul α] [Div α]
    [OfNat α (nat_lit 1)] [OfNat α (nat_lit 2)] [OfNat α (nat_lit 3)]
    (bk : Backend) (rsqrte : α → α) (vec : simd4f α) : simd4f α :=
  mul_ps bk vec (vec4_rsqrt bk rsqrte vec)

/-- Source `vec4_length_float`. -/
def vec4_length_float {α : Type} [Add α] [Sub α] [Mul α] [Div α]
    [OfNat α (nat_lit 1)] [OfNat α (nat_lit 2)] [OfNat α (nat_lit 3)]
    (bk : Backend) (rsqrte : α → α) (vec : simd4f α) : α :=
  SIMD4F_TO_FLOAT bk (vec4_sqrt bk rsqrte (dot4_ps vec vec))

/-- Source `vec4_length_ps`. -/
def vec4_length_ps {α : Type} [Add α] [Sub α] [Mul α] [Div α]
    [OfNat α (nat_lit 1)] [OfNat α (nat_lit 2)] [OfNat α (nat_lit 3)]
    (bk : Backend) (rsqrte : α → α)
    (vec : simd4f α) : simd4f α :=
  vec4_sqrt bk rsqrte (dot4_ps vec vec)

/-- Source `vec4_normalize`. -/
def vec4_normalize {α : Type} [Add α] [Sub α] [Mul α] [Div α]
    [OfNat α (nat_lit 1)] [OfNat α (nat_lit 2)] [OfNat α (nat_lit 3)]
    (bk : Backend) (rsqrte : α → α)
    (vec : simd4f α) : simd4f α :=
  mul_ps bk vec (vec4_rsqrt bk rsqrte (vec4_length_sq_ps vec))

/-- Source `vec3_length_float`. -/
def vec3_length_float {α : Type} [Add α] [Sub α] [Mul α] [Div α]
    [OfNat α (nat_lit 1)] [OfNat α (nat_lit 2)] [OfNat α (nat_lit 3)] [Zero α]
    (bk : Backend) (rsqrte : α → α) (vec : simd4f α) : α :=
  SIMD4F_TO_FLOAT bk (vec4_sqrt bk rsqrte (dot3_ps vec vec))

/-- Source `vec3_length_ps`. -/
def vec3_length_ps {α : Type} [Add α] [Sub α] [Mul α] [Div α]
    [OfNat α (nat_lit 1)] [OfNat α (nat_lit 2)] [OfNat α (nat_lit 3)] [Zero α]
    (bk : Backend) (rsqrte : α → α)
    (vec : simd4f α) : simd4f α :=
  vec4_sqrt bk rsqrte (dot3_ps vec vec)

/-- Source `vec3_normalize`. -/
def vec3_normalize {α : Type} [Add α] [Sub α] [Mul α] [Div α]
    [OfNat α (nat_lit 1)] [OfNat α (nat_lit 2)] [OfNat α (nat_lit 3)] [Zero α]
    (bk : Backend) (rsqrte : α → α)
    (vec : simd4f α) : simd4f α :=
  mul_ps bk vec (vec4_rsqrt bk rsqrte (vec3_length_sq_ps vec))

/-! ## Debug formatting (source lines 143-152) -/

/-- The conversion `%02X` of `sprintf` for a non-negative `int`: upper-case
hexadecimal digits, padded on the left with `0` to at least two characters. -/
def fmt_02X (n : Nat) : List Char :=
  let ds := (Nat.toDigits 16 n).map Char.toUpper
  List.replicate (2 - ds.length) '0' ++ ds

/-- Source `ToString(uint8x8x2_t)`: the 16 bytes printed from `v[15]` down to `v[0]`. -/
def ToString (vec : uint8x8x2_t) : String :=
  let v : List uint8_t := vec.val0 ++ vec.val1
  String.mk (['['] ++ fmt_02X (v.getD 15 0) ++ [',', ' '] ++ fmt_02X (v.getD 14 0)
    ++ [',', ' '] ++ fmt_02X (v.getD 13 0) ++ [',', ' '] ++ fmt_02X (v.getD 12 0)
    ++ [',', ' '] ++ fmt_02X (v.getD 11 0) ++ [',', ' '] ++ fmt_02X (v.getD 10 0)
    ++ [',', ' '] ++ fmt_02X (v.getD 9 0) ++ [',', ' '] ++ fmt_02X (v.getD 8 0)
    ++ [' ', '|', ' '] ++ fmt_02X (v.getD 7 0) ++ [',', ' '] ++ fmt_02X (v.getD 6 0)
    ++ [',', ' '] ++ fmt_02X (v.getD 5 0) ++ [',', ' '] ++ fmt_02X (v.getD 4 0)
    ++ [',', ' '] ++ fmt_02X (v.getD 3 0) ++ [',', ' '] ++ fmt_02X (v.getD 2 0)
    ++ [',', ' '] ++ fmt_02X (v.getD 1 0) ++ [',', ' '] ++ fmt_02X (v.getD 0 0) ++ [']'])

/-! ## Auxiliary definitions for the statements -/

/-- All 16 bytes of a register, lowest address first. -/
def simd4f_bytes (v : simd4f Nat) : List uint8_t :=
  (simd4f_as_bytes v).val0 ++ (simd4f_as_bytes v).val1

/-- Bit patterns of the floats 1.0, 2.0, 3.0, 4.0 (IEEE-754 binary32). -/
def bits_1234 : simd4f Nat := ⟨0x3F800000, 0x40000000, 0x40400000, 0x40800000⟩

/-- Bit patterns of the floats 4.0, 3.0, 2.0, 1.0 (IEEE-754 binary32). -/
def bits_4321 : simd4f Nat := ⟨0x40800000, 0x40400000, 0x40000000, 0x3F800000⟩

/-- A register whose four lanes are 32-bit patterns. -/
def simd4f.wellFormed (v : simd4f Nat) : Prop :=
  v.x < 2 ^ 32 ∧ v.y < 2 ^ 32 ∧ v.z < 2 ^ 32 ∧ v.w < 2 ^ 32

instance (v : simd4f Nat) : Decidable v.wellFormed := by
  unfold simd4f.wellFormed; infer_instance

/-- Spec §4.2 reciprocal refinement step: `e ↦ e * (2 - x*e)`. -/
def recip_step {α : Type} [Field α] (x e : α) : α := e * (2 - x * e)

/-- Spec §4.2 reciprocal-square-root refinement step: `r ↦ r * (1.5 - 0.5*x*r^2)`. -/
def rsqrt_step {α : Type} [Field α] (x r : α) : α := r * (3 / 2 - 1 / 2 * x * r ^ 2)

/-- A sample reciprocal estimate on `ℚ` with relative error `2^-12`. -/
def rcpe_sample (x : ℚ) : ℚ := 4095 / 4096 / x

/-- A sample reciprocal-square-root estimate on `ℚ`: `511/512` (relative error
`2^-9` at `x = 1`). -/
def rsqrte_sample (_x : ℚ) : ℚ := 511 / 512

/-- Lane `m` of `v` when `m < 4`, and the all-zero lane otherwise. -/
def lane_or_zero (v : simd4f Nat) (m : Nat) : Nat :=
  if h : m < 4 then v.lane ⟨m, h⟩ else 0

/-- A sample exact reciprocal estimate on `ℚ`. -/
def rcpe_exact_sample (x : ℚ) : ℚ := 1 / x

/-- A sample reciprocal-square-root estimate on `ℚ`, exact at 4 and at 25. -/
def rsqrte_exact_sample (x : ℚ) : ℚ := if x = 25 then 1 / 5 else 1 / 2

/-- The upper-case hexadecimal digit for `d < 16`. -/
def hexUpper (d : Nat) : Char := Char.ofNat (if d < 10 then 48 + d else 55 + d)

/-- A byte as exactly two upper-case hexadecimal digits, high nibble first. -/
def hex2 (n : Nat) : List Char := [hexUpper (n / 16), hexUpper (n % 16)]

/-- The value of an upper-case hexadecimal digit. -/
def hexValue (c : Char) : Nat := if c.toNat < 58 then c.toNat - 48 else c.toNat - 55

/-- The byte written as two hexadecimal digits at positions `p`, `p + 1`. -/
def byteAt (cs : List Char) (p : Nat) : Nat :=
  16 * hexValue (cs.getD p ' ') + hexValue (cs.getD (p + 1) ' ')

/-- Read the 16 bytes back from a dump: byte `j` is at position `1 + 4*(15 - j)`
for `j ≥ 8` and at `34 + 4*(7 - j)` for `j < 8`. -/
def bytesOfDump (s : String) : uint8x8x2_t :=
  let cs := s.data
  ⟨[byteAt cs 62, byteAt cs 58, byteAt cs 54, byteAt cs 50, byteAt cs 46, byteAt cs 42,
    byteAt cs 38, byteAt cs 34],
   [byteAt cs 29, byteAt cs 25, byteAt cs 21, byteAt cs 17, byteAt cs 13, byteAt cs 9,
    byteAt cs 5, byteAt cs 1]⟩

/-- The register with bytes `b 0 .. b 15`, `b 0` at the lowest address. -/
def register_of_bytes (b : Fin 16 → Fin 256) : uint8x8x2_t :=
  ⟨[(b 0).val, (b 1).val, (b 2).val, (b 3).val, (b 4).val, (b 5).val, (b 6).val, (b 7).val],
   [(b 8).val, (b 9).val, (b 10).val, (b 11).val, (b 12).val, (b 13).val, (b 14).val,
    (b 15).val]⟩

/-- Spec §4.5 dump: the bytes from the highest-addressed to the lowest, two
upper-case hex digits each, the upper eight and the lower eight joined by
`", "`, separated by `" | "`, in square brackets. -/
def hexDump_spec (b : Fin 16 → Fin 256) : String :=
  String.mk (['['] ++ List.intercalate [',', ' ']
      ([15, 14, 13, 12, 11, 10, 9, 8].map (fun j : Fin 16 => hex2 (b j).val))
    ++ [' ', '|', ' '] ++ List.intercalate [',', ' ']
      ([7, 6, 5, 4, 3, 2, 1, 0].map (fun j : Fin 16 => hex2 (b j).val)) ++ [']'])

/-! ## Binary32 lane arithmetic

The lanes of the source are IEEE-754 binary32 values.  For finite values in
the normal range a lane is a dyadic number `m * 2^e`, kept in lowest terms
(`m` odd, or `m = 0` and `e = 0`), and every arithmetic operation returns
the exact result rounded to 24 significant bits, ties to even.  Overflow,
subnormal results, infinities and NaN are outside this arithmetic, and a
quotient with divisor zero is given as 0. -/

/-- Number of binary digits of `n`, for `fuel` at least that number. -/
def bitLengthAux : Nat → Nat → Nat
  | 0, _ => 0
  | fuel + 1, n => if n = 0 then 0 else bitLengthAux fuel (n / 2) + 1

/-- Number of binary digits of `n` (0 for `n = 0`). -/
def bitLength (n : Nat) : Nat := bitLengthAux n n

/-- A finite binary32 value `m * 2^e`. -/
structure binary32 where
  m : Int
  e : Int
  deriving DecidableEq, Repr

/-- Lowest terms of `m * 2^e`, for `fuel` at least the number of trailing zero bits of `m`. -/
def binary32.normAux : Nat → Int → Int → binary32
  | 0, m, e => ⟨m, e⟩
  | fuel + 1, m, e =>
    if m = 0 then ⟨0, 0⟩
    else if m % 2 = 0 then binary32.normAux fuel (m / 2) (e + 1)
    else ⟨m, e⟩

/-- The dyadic number `m * 2^e` in lowest terms, not rounded. -/
def binary32.norm (m e : Int) : binary32 := binary32.normAux (bitLength m.natAbs + 1) m e

/-- The dyadic number `m * 2^e` rounded to 24 significant bits, ties to even. -/
def binary32.round (m e : Int) : binary32 :=
  let n := m.natAbs
  let b := bitLength n
  if b ≤ 24 then binary32.norm m e
  else
    let s := b - 24
    let q := n / 2 ^ s
    let r := n % 2 ^ s
    let h := 2 ^ (s - 1)
    let q2 := if h < r ∨ (r = h ∧ q % 2 = 1) then q + 1 else q
    binary32.norm (m.sign * q2) (e + s)

/-- Rounded sum. -/
def binary32.add (a b : binary32) : binary32 :=
  let e := min a.e b.e
  binary32.round (a.m * 2 ^ (a.e - e).toNat + b.m * 2 ^ (b.e - e).toNat) e

/-- Rounded difference. -/
def binary32.sub (a b : binary32) : binary32 :=
  let e := min a.e b.e
  binary32.round (a.m * 2 ^ (a.e - e).toNat - b.m * 2 ^ (b.e - e).toNat) e

/-- Rounded product. -/
def binary32.mul (a b : binary32) : binary32 := binary32.round (a.m * b.m) (a.e + b.e)

/-- Rounded quotient: the quotient of the significands is taken to at least 27
bits, one more bit records a non-zero remainder, and the result is rounded. -/
def binary32.div (a b : binary32) : binary32 :=
  if b.m = 0 then ⟨0, 0⟩
  else
    let k := 26 + bitLength b.m.natAbs
    let num := a.m.natAbs * 2 ^ k
    let q := num / b.m.natAbs
    let sticky := if num % b.m.natAbs = 0 then 0 else 1
    binary32.round (a.m.sign * b.m.sign * (2 * q + sticky)) (a.e - b.e - k - 1)

instance : Add binary32 := ⟨binary32.add⟩

instance : Sub binary32 := ⟨binary32.sub⟩

instance : Mul binary32 := ⟨binary32.mul⟩

instance : Div binary32 := ⟨binary32.div⟩

instance : Zero binary32 := ⟨⟨0, 0⟩⟩

instance (n : Nat) : OfNat binary32 n := ⟨binary32.round n 0⟩

/-- The rational number a binary32 value stands for. -/
def binary32.toRat (a : binary32) : ℚ := a.m * 2 ^ a.e

/-- The 32-bit pattern of a non-zero value in the normal range: sign, biased
exponent, 23 fraction bits. -/
def binary32.toBits (a : binary32) : Nat :=
  let b := bitLength a.m.natAbs
  let frac := a.m.natAbs * 2 ^ (24 - b) - 2 ^ 23
  let biased := (a.e + b - 1 + 127).toNat
  (if a.m < 0 then 2 ^ 31 else 0) + biased * 2 ^ 23 + frac

/-- The estimate `vrsqrteq_f32` returns for the lane value 25.0: `409/2048`,
bit pattern `3E4C8000`. -/
def vrsqrte_at_25 (_x : binary32) : binary32 := ⟨409, -11⟩

/-- The register (0.5, 1.5, 1.5, 4.5), whose `dot4` with itself is 25. -/
def v_half_steps : simd4f binary32 := ⟨⟨1, -1⟩, ⟨3, -1⟩, ⟨3, -1⟩, ⟨9, -1⟩⟩

/-- The register (3, 4, 0, 0), whose `dot4` with itself is 25. -/
def v_3400 : simd4f binary32 := ⟨⟨3, 0⟩, ⟨1, 2⟩, ⟨0, 0⟩, ⟨0, 0⟩⟩

/-! ## Lemmas: lane permutation -/

/-- Output lane x is the source lane chosen by the first index, whatever the other indices. -/
theorem vec4_permute_x (v : simd4f Nat) (hv : v.wellFormed) (i : Fin 4) (j k l : Int) :
    (vec4_permute v (i.val : Int) j k l).x = v.lane i := by
  obtain ⟨hx, hy, hz, hw⟩ := hv
  fin_cases i <;>
    simp [vec4_permute, index_base, to_uint8, vld1_u8, vtbl2_u8, simd4f_as_bytes, bytes_as_simd4f,
      laneOfBytes, laneBytes, simd4f.lane] <;> omega

/-- Output lane y is the source lane chosen by the second index, whatever the other indices. -/
theorem vec4_permute_y (v : simd4f Nat) (hv : v.wellFormed) (j : Fin 4) (i k l : Int) :
    (vec4_permute v i (j.val : Int) k l).y = v.lane j := by
  obtain ⟨hx, hy, hz, hw⟩ := hv
  fin_cases j <;>
    simp [vec4_permute, index_base, to_uint8, vld1_u8, vtbl2_u8, simd4f_as_bytes, bytes_as_simd4f,
      laneOfBytes, laneBytes, simd4f.lane] <;> omega

/-- Output lane z is the source lane chosen by the third index, whatever the other indices. -/
theorem vec4_permute_z (v : simd4f Nat) (hv : v.wellFormed) (k : Fin 4) (i j l : Int) :
    (vec4_permute v i j (k.val : Int) l).z = v.lane k := by
  obtain ⟨hx, hy, hz, hw⟩ := hv
  fin_cases k <;>
    simp [vec4_permute, index_base, to_uint8, vld1_u8, vtbl2_u8, simd4f_as_bytes, bytes_as_simd4f,
      laneOfBytes, laneBytes, simd4f.lane] <;> omega

/-- Output lane w is the source lane chosen by the fourth index, whatever the other indices. -/
theorem vec4_permute_w (v : simd4f Nat) (hv : v.wellFormed) (l : Fin 4) (i j k : Int) :
    (vec4_permute v i j k (l.val : Int)).w = v.lane l := by
  obtain ⟨hx, hy, hz, hw⟩ := hv
  fin_cases l <;>
    simp [vec4_permute, index_base, to_uint8, vld1_u8, vtbl2_u8, simd4f_as_bytes, bytes_as_simd4f,
      laneOfBytes, laneBytes, simd4f.lane] <;> omega

/-- With all four indices in range the permutation is lane selection. -/
theorem vec4_permute_eq (v : simd4f Nat) (hv : v.wellFormed) (i j k l : Fin 4) :
    vec4_permute v (i.val : Int) (j.val : Int) (k.val : Int) (l.val : Int)
      = ⟨v.lane i, v.lane j, v.lane k, v.lane l⟩ := by
  ext
  · exact vec4_permute_x v hv i _ _ _
  · exact vec4_permute_y v hv j _ _ _
  · exact vec4_permute_z v hv k _ _ _
  · exact vec4_permute_w v hv l _ _ _

/-- Byte `4*m + n` of a register is byte `n` of its lane `m`. -/
theorem simd4f_bytes_getD (v : simd4f Nat) (m n : Fin 4) :
    (simd4f_bytes v).getD (4 * m.val + n.val) 0 = (laneBytes (v.lane m)).getD n.val 0 := by
  fin_cases m <;> fin_cases n <;>
    simp [simd4f_bytes, simd4f_as_bytes, laneBytes, simd4f.lane]

/-! ## Lemmas: permutation with arbitrary indices -/

/-- The table base is four times the index reduced modulo 64. -/
theorem index_base_eq (i : Int) : index_base i = 4 * (i % 64).toNat := by
  show ((i % 256).toNat <<< 2) % 256 = 4 * (i % 64).toNat
  rw [Nat.shiftLeft_eq]
  omega

/-- Output lane x for an arbitrary first index. -/
theorem vec4_permute_x_any (v : simd4f Nat) (hv : v.wellFormed) (i j k l : Int) :
    (vec4_permute v i j k l).x = lane_or_zero v (i % 64).toNat := by
  obtain ⟨hx, hy, hz, hw⟩ := hv
  have hI := index_base_eq i
  have hm : (i % 64).toNat < 64 := by omega
  generalize (i % 64).toNat = m at hI hm
  unfold vec4_permute
  rw [hI]
  by_cases h4 : m < 4
  · interval_cases m <;>
      simp [vld1_u8, vtbl2_u8, simd4f_as_bytes, bytes_as_simd4f, laneOfBytes, laneBytes,
        simd4f.lane, lane_or_zero] <;> omega
  · have h0 : ¬ 4 * m < 16 := by omega
    have h1 : ¬ (4 * m + 1) % 256 < 16 := by omega
    have h2 : ¬ (4 * m + 2) % 256 < 16 := by omega
    have h3 : ¬ (4 * m + 3) % 256 < 16 := by omega
    simp [vld1_u8, vtbl2_u8, simd4f_as_bytes, bytes_as_simd4f, laneOfBytes, lane_or_zero,
      h0, h1, h2, h3, h4]

/-- Output lane y for an arbitrary second index. -/
theorem vec4_permute_y_any (v : simd4f Nat) (hv : v.wellFormed) (i j k l : Int) :
    (vec4_permute v i j k l).y = lane_or_zero v (j % 64).toNat := by
  obtain ⟨hx, hy, hz, hw⟩ := hv
  have hI := index_base_eq j
  have hm : (j % 64).toNat < 64 := by omega
  generalize (j % 64).toNat = m at hI hm
  unfold vec4_permute
  rw [hI]
  by_cases h4 : m < 4
  · interval_cases m <;>
      simp [vld1_u8, vtbl2_u8, simd4f_as_bytes, bytes_as_simd4f, laneOfBytes, laneBytes,
        simd4f.lane, lane_or_zero] <;> omega
  · have h0 : ¬ 4 * m < 16 := by omega
    have h1 : ¬ (4 * m + 1) % 256 < 16 := by omega
    have h2 : ¬ (4 * m + 2) % 256 < 16 := by omega
    have h3 : ¬ (4 * m + 3) % 256 < 16 := by omega
    simp [vld1_u8, vtbl2_u8, simd4f_as_bytes, bytes_as_simd4f, laneOfBytes, lane_or_zero,
      h0, h1, h2, h3, h4]

/-- Output lane z for an arbitrary third index. -/
theorem vec4_permute_z_any (v : simd4f Nat) (hv : v.wellFormed) (i j k l : Int) :
    (vec4_permute v i j k l).z = lane_or_zero v (k % 64).toNat := by
  obtain ⟨hx, hy, hz, hw⟩ := hv
  have hI := index_base_eq k
  have hm : (k % 64).toNat < 64 := by omega
  generalize (k % 64).toNat = m at hI hm
  unfold vec4_permute
  rw [hI]
  by_cases h4 : m < 4
  · interval_cases m <;>
      simp [vld1_u8, vtbl2_u8, simd4f_as_bytes, bytes_as_simd4f, laneOfBytes, laneBytes,
        simd4f.lane, lane_or_zero] <;> omega
  · have h0 : ¬ 4 * m < 16 := by omega
    have h1 : ¬ (4 * m + 1) % 256 < 16 := by omega
    have h2 : ¬ (4 * m + 2) % 256 < 16 := by omega
    have h3 : ¬ (4 * m + 3) % 256 < 16 := by omega
    simp [vld1_u8, vtbl2_u8, simd4f_as_bytes, bytes_as_simd4f, laneOfBytes, lane_or_zero,
      h0, h1, h2, h3, h4]

/-- Output lane w for an arbitrary fourth index. -/
theorem vec4_permute_w_any (v : simd4f Nat) (hv : v.wellFormed) (i j k l : Int) :
    (vec4_permute v i j k l).w = lane_or_zero v (l % 64).toNat := by
  obtain ⟨hx, hy, hz, hw⟩ := hv
  have hI := index_base_eq l
  have hm : (l % 64).toNat < 64 := by omega
  generalize (l % 64).toNat = m at hI hm
  unfold vec4_permute
  rw [hI]
  by_cases h4 : m < 4
  · interval_cases m <;>
      simp [vld1_u8, vtbl2_u8, simd4f_as_bytes, bytes_as_simd4f, laneOfBytes, laneBytes,
        simd4f.lane, lane_or_zero] <;> omega
  · have h0 : ¬ 4 * m < 16 := by omega
    have h1 : ¬ (4 * m + 1) % 256 < 16 := by omega
    have h2 : ¬ (4 * m + 2) % 256 < 16 := by omega
    have h3 : ¬ (4 * m + 3) % 256 < 16 := by omega
    simp [vld1_u8, vtbl2_u8, simd4f_as_bytes, bytes_as_simd4f, laneOfBytes, lane_or_zero,
      h0, h1, h2, h3, h4]

/-- Every lane of a register of 32-bit lanes is below `2^32`. -/
theorem simd4f.wellFormed_lane (v : simd4f Nat) (hv : v.wellFormed) (n : Fin 4) :
    v.lane n < 2 ^ 32 := by
  obtain ⟨hx, hy, hz, hw⟩ := hv
  fin_cases n
  · exact hx
  · exact hy
  · exact hz
  · exact hw

/-- Lane `n` of a register given by its four lanes. -/
theorem simd4f.lane_mk {α : Type} (f : Fin 4 → α) (n : Fin 4) :
    (simd4f.mk (f 0) (f 1) (f 2) (f 3)).lane n = f n := by
  fin_cases n <;> rfl

/-- The bytes of `lane_or_zero` are zero or the bytes of a lane of `v`. -/
theorem laneBytes_lane_or_zero (v : simd4f Nat) (m : Nat) (n : Fin 4) :
    (laneBytes (lane_or_zero v m)).getD n.val 0 = 0
    ∨ ∃ q : Fin 4, (laneBytes (lane_or_zero v m)).getD n.val 0
        = (simd4f_bytes v).getD (4 * q.val + n.val) 0 := by
  by_cases h : m < 4
  · right
    refine ⟨⟨m, h⟩, ?_⟩
    rw [simd4f_bytes_getD]
    simp [lane_or_zero, h]
  · left
    fin_cases n <;> simp [lane_or_zero, h, laneBytes]

/-! ## Lemmas: per-lane form of the refinements -/

/-- NEON `vec4_recip`, lane by lane: the estimate refined twice. -/
theorem vec4_recip_neon_lane {α : Type} [Field α] (rcpe : α → α) (v : simd4f α) (n : Fin 4) :
    (vec4_recip .neon rcpe v).lane n
      = recip_step (v.lane n) (recip_step (v.lane n) (rcpe (v.lane n))) := by
  fin_cases n <;>
    simp [vec4_recip, vrecpeq_f32, vmulq_f32, vrecpsq_f32, simd4f.zipWith, simd4f.map,
      simd4f.lane, recip_step] <;> ring

/-- SSE `vec4_recip`, lane by lane: the estimate refined once. -/
theorem vec4_recip_sse_lane {α : Type} [Field α] (rcpe : α → α) (v : simd4f α) (n : Fin 4) :
    (vec4_recip .sse rcpe v).lane n = recip_step (v.lane n) (rcpe (v.lane n)) := by
  fin_cases n <;>
    simp [vec4_recip, _mm_rcp_ps, _mm_sub_ps, _mm_add_ps, _mm_mul_ps, simd4f.zipWith, simd4f.map,
      simd4f.lane, recip_step] <;> ring

/-- Either branch of `vec4_rsqrt`, lane by lane: the estimate refined once. -/
theorem vec4_rsqrt_lane {α : Type} [LinearOrderedField α] (bk : Backend) (rsqrte : α → α)
    (v : simd4f α) (n : Fin 4) :
    (vec4_rsqrt bk rsqrte v).lane n = rsqrt_step (v.lane n) (rsqrte (v.lane n)) := by
  cases bk <;> fin_cases n <;>
    simp [vec4_rsqrt, _mm_rsqrt_ps, _mm_sub_ps, _mm_add_ps, _mm_mul_ps, _mm_set1_ps,
      vrsqrteq_f32, vrsqrtsq_f32, vmulq_f32, simd4f.zipWith, simd4f.map,
      simd4f.lane, rsqrt_step] <;> ring

/-- Each lane of `vec4_sqrt(x)` is `x` times the lane of `vec4_rsqrt(x)`. -/
theorem vec4_sqrt_lane {α : Type} [Field α] (bk : Backend) (rsqrte : α → α)
    (v : simd4f α) (n : Fin 4) :
    (vec4_sqrt bk rsqrte v).lane n = v.lane n * (vec4_rsqrt bk rsqrte v).lane n := by
  cases bk <;> fin_cases n <;>
    simp [vec4_sqrt, mul_ps, vmulq_f32, _mm_mul_ps, simd4f.zipWith, simd4f.lane]

/-- One refinement step takes an estimate of relative error at most `1e-3` to a
value `r` with `|r*r*x - 1| ≤ 3.01e-6`. -/
theorem rsqrt_step_residual (x r0 : ℝ) (hx : 0 < x)
    (he : |r0 - 1 / Real.sqrt x| ≤ 1 / 1000 * (1 / Real.sqrt x)) :
    |rsqrt_step x r0 * rsqrt_step x r0 * x - 1| ≤ 301 / 100000000 := by
  have hs : 0 < Real.sqrt x := Real.sqrt_pos.mpr hx
  have hss : Real.sqrt x * Real.sqrt x = x := Real.mul_self_sqrt hx.le
  obtain ⟨hlo, hhi⟩ := abs_le.mp he
  have hinv : 1 / Real.sqrt x * Real.sqrt x = 1 := by field_simp
  have h1 : -(1 / 1000) ≤ r0 * Real.sqrt x - 1 := by
    have := mul_le_mul_of_nonneg_right hlo hs.le
    nlinarith [this, hinv]
  have h2 : r0 * Real.sqrt x - 1 ≤ 1 / 1000 := by
    have := mul_le_mul_of_nonneg_right hhi hs.le
    nlinarith [this, hinv]
  generalize hd : r0 * Real.sqrt x - 1 = d at h1 h2
  have hu : r0 * Real.sqrt x = 1 + d := by linarith
  have hd2 : d ^ 2 ≤ 1 / 1000000 := by nlinarith
  have hd0 : 0 ≤ d ^ 2 := sq_nonneg d
  have ht0 : 0 ≤ d ^ 2 * (3 + d) := mul_nonneg hd0 (by linarith)
  have ht1 : d ^ 2 * (3 + d) ≤ 3001 / 1000000000 := by
    have : d ^ 2 * (3 + d) ≤ 1 / 1000000 * (3 + 1 / 1000) :=
      mul_le_mul hd2 (by linarith) (by linarith) (by norm_num)
    linarith
  have hkey : rsqrt_step x r0 * rsqrt_step x r0 * x - 1
      = -(d ^ 2 * (3 + d)) + (d ^ 2 * (3 + d)) ^ 2 / 4 := by
    have e1 : rsqrt_step x r0 * rsqrt_step x r0 * x
        = ((r0 * Real.sqrt x) * (3 / 2 - 1 / 2 * (r0 * Real.sqrt x) ^ 2)) ^ 2 := by
      simp only [rsqrt_step]
      nth_rewrite 3 [← hss]
      nth_rewrite 2 [← hss]
      nth_rewrite 1 [← hss]
      ring
    rw [e1, hu]
    ring
  rw [hkey]
  generalize d ^ 2 * (3 + d) = t at ht0 ht1
  rw [abs_le]
  constructor <;> nlinarith

/-! ## Lemmas: lanes of broadcasts, products and extracts -/

/-- Every lane of a broadcast is the broadcast scalar. -/
theorem vdupq_n_f32_lane {α : Type} (f : α) (n : Fin 4) : (vdupq_n_f32 f).lane n = f := by
  fin_cases n <;> rfl

/-- Lane `n` of `mul_ps(a, b)` is `a_n * b_n` on either branch. -/
theorem mul_ps_lane {α : Type} [Mul α] (bk : Backend) (a b : simd4f α) (n : Fin 4) :
    (mul_ps bk a b).lane n = a.lane n * b.lane n := by
  cases bk <;> fin_cases n <;> rfl

/-- The lane `SIMD4F_TO_FLOAT` extracts is lane 0 on either branch. -/
theorem SIMD4F_TO_FLOAT_lane {α : Type} (bk : Backend) (v : simd4f α) :
    SIMD4F_TO_FLOAT bk v = v.lane 0 := by
  cases bk <;> rfl

/-- Every lane of `vec4_sqrt` of a broadcast is the same value. -/
theorem vec4_sqrt_broadcast_lane {α : Type} [Field α] (bk : Backend) (rsqrte : α → α)
    (f : α) (n : Fin 4) :
    (vec4_sqrt bk rsqrte (vdupq_n_f32 f)).lane n
      = f * (vec4_rsqrt bk rsqrte (vdupq_n_f32 f)).x := by
  cases bk <;> fin_cases n <;> rfl

/-- Every lane of `vec4_rsqrt` of a broadcast is its lane 0, in any lane arithmetic. -/
theorem vec4_rsqrt_broadcast_lane {α : Type} [Add α] [Sub α] [Mul α] [Div α]
    [OfNat α (nat_lit 1)] [OfNat α (nat_lit 2)] [OfNat α (nat_lit 3)]
    (bk : Backend) (rsqrte : α → α) (f : α) (n : Fin 4) :
    (vec4_rsqrt bk rsqrte (vdupq_n_f32 f)).lane n
      = (vec4_rsqrt bk rsqrte (vdupq_n_f32 f)).lane 0 := by
  cases bk <;> fin_cases n <;> rfl

/-- Over exact arithmetic `dot4_float` is the sum of the four lane products. -/
theorem dot4_float_sum {α : Type} [CommRing α] (c d : simd4f α) :
    dot4_float c d = c.x * d.x + c.y * d.y + c.z * d.z + c.w * d.w := by
  simp only [dot4_float, sum_xyzw_float, vmulq_f32, simd4f.zipWith, vadd_f32, vget_high_f32,
    vget_low_f32, vpadd_f32, vget_lane_f32]
  ring

/-- Each lane of `vec4_normalize(v)` is `v_n` times the refined estimate of `dot4(v, v)`. -/
theorem vec4_normalize_lane {α : Type} [LinearOrderedField α] (bk : Backend) (rsqrte : α → α)
    (v : simd4f α) (n : Fin 4) :
    (vec4_normalize bk rsqrte v).lane n
      = v.lane n * rsqrt_step (dot4_float v v) (rsqrte (dot4_float v v)) := by
  rw [vec4_normalize, mul_ps_lane, vec4_rsqrt_lane, vec4_length_sq_ps, dot4_ps, vdupq_n_f32_lane]

/-- An estimate with `x * e = 1` is a fixed point of the reciprocal step. -/
theorem recip_step_fixed {α : Type} [Field α] (x e : α) (h : x * e = 1) :
    recip_step x e = e := by
  simp only [recip_step, h]; ring

/-- An estimate with `x * r^2 = 1` is a fixed point of the reciprocal-square-root step. -/
theorem rsqrt_step_fixed {α : Type} [LinearOrderedField α] (x r : α) (h : x * r ^ 2 = 1) :
    rsqrt_step x r = r := by
  have : 1 / 2 * x * r ^ 2 = 1 / 2 := by rw [mul_assoc, h, mul_one]
  simp only [rsqrt_step, this]; ring

/-! ## Lemmas: hexadecimal digits -/

set_option maxRecDepth 100000 in
/-- A byte is printed by `%02X` as its two upper-case hexadecimal digits. -/
theorem fmt_02X_byte (n : Fin 256) : fmt_02X n.val = hex2 n.val := by
  revert n; decide

set_option maxRecDepth 100000 in
/-- Reading the two hexadecimal digits of a byte gives the byte back. -/
theorem byte_of_hex2 (n : Fin 256) :
    16 * hexValue (hexUpper (n.val / 16)) + hexValue (hexUpper (n.val % 16)) = n.val := by
  revert n; decide

/-! ## Lane permutation -/

/-- C1: on 32-bit lanes and indices `i, j, k, l` in {0,1,2,3} the NEON byte-table
`vec4_permute` returns the register whose lanes 0..3 are lanes `i, j, k, l` of
`v`; byte `n` of output lane `m` is byte `n` of the selected source lane;
`(1,2,3,4)` permuted by `3,2,1,0` is `(4,3,2,1)`, and `0,0,0,0` broadcasts lane 0. -/
theorem vec4_permute_selects_lanes (v : simd4f Nat) (hv : v.wellFormed) (i j k l : Fin 4) :
    vec4_permute v (i.val : Int) (j.val : Int) (k.val : Int) (l.val : Int)
        = ⟨v.lane i, v.lane j, v.lane k, v.lane l⟩
    ∧ (∀ n : Fin 4,
        (simd4f_bytes (vec4_permute v (i.val : Int) (j.val : Int) (k.val : Int) (l.val : Int))).getD
            (4 * 0 + n.val) 0 = (simd4f_bytes v).getD (4 * i.val + n.val) 0
        ∧ (simd4f_bytes (vec4_permute v (i.val : Int) (j.val : Int) (k.val : Int) (l.val : Int))).getD
            (4 * 1 + n.val) 0 = (simd4f_bytes v).getD (4 * j.val + n.val) 0
        ∧ (simd4f_bytes (vec4_permute v (i.val : Int) (j.val : Int) (k.val : Int) (l.val : Int))).getD
            (4 * 2 + n.val) 0 = (simd4f_bytes v).getD (4 * k.val + n.val) 0
        ∧ (simd4f_bytes (vec4_permute v (i.val : Int) (j.val : Int) (k.val : Int) (l.val : Int))).getD
            (4 * 3 + n.val) 0 = (simd4f_bytes v).getD (4 * l.val + n.val) 0)
    ∧ vec4_permute bits_1234 3 2 1 0 = bits_4321
    ∧ vec4_permute v 0 0 0 0 = ⟨v.x, v.x, v.x, v.x⟩ := by
  refine ⟨vec4_permute_eq v hv i j k l, ?_, by decide, vec4_permute_eq v hv 0 0 0 0⟩
  intro n
  rw [vec4_permute_eq v hv i j k l]
  have h0 := simd4f_bytes_getD ⟨v.lane i, v.lane j, v.lane k, v.lane l⟩ 0 n
  have h1 := simd4f_bytes_getD ⟨v.lane i, v.lane j, v.lane k, v.lane l⟩ 1 n
  have h2 := simd4f_bytes_getD ⟨v.lane i, v.lane j, v.lane k, v.lane l⟩ 2 n
  have h3 := simd4f_bytes_getD ⟨v.lane i, v.lane j, v.lane k, v.lane l⟩ 3 n
  rw [simd4f_bytes_getD v i n, simd4f_bytes_getD v j n, simd4f_bytes_getD v k n,
    simd4f_bytes_getD v l n]
  exact ⟨h0, h1, h2, h3⟩

/-- C1 at `(1,2,3,4)` reversed by `3,2,1,0`. -/
theorem vec4_permute_selects_lanes_witness :
    bits_1234.wellFormed
    ∧ vec4_permute bits_1234 ((3 : Fin 4).val : Int) ((2 : Fin 4).val : Int)
        ((1 : Fin 4).val : Int) ((0 : Fin 4).val : Int) = bits_4321 :=
  ⟨by decide, (vec4_permute_selects_lanes bits_1234 (by decide) 3 2 1 0).1⟩

/-! ## Division and reciprocal -/

/-- C2 as stated fails on the SSE branch: with `1/3` estimated to relative error
`2^-12`, `vec4_div_vec4((1,1,1,1), (3,3,3,3))` is the native quotient and differs
from `vec4_mul_vec4(a, vec4_recip(b))`. -/
theorem vec4_div_vec4_sse_ne_mul_recip :
    vec4_div_vec4 .sse rcpe_sample ⟨1, 1, 1, 1⟩ ⟨3, 3, 3, 3⟩
      ≠ vec4_mul_vec4 .sse ⟨1, 1, 1, 1⟩ (vec4_recip .sse rcpe_sample ⟨3, 3, 3, 3⟩) := by
  intro h
  have hx := congrArg simd4f.x h
  norm_num [vec4_div_vec4, vec4_mul_vec4, vec4_recip, _mm_div_ps, _mm_mul_ps, _mm_rcp_ps,
    _mm_sub_ps, _mm_add_ps, simd4f.zipWith, simd4f.map, rcpe_sample] at hx

/-- C2 amended: on the NEON branch `vec4_div_vec4(a, b)` equals
`vec4_mul_vec4(a, vec4_recip(b))`; on the SSE branch it is the native lane-wise
divide `_mm_div_ps(a, b)`, lane `n` being `a_n / b_n`. -/
theorem vec4_div_vec4_by_backend {α : Type} [Field α] (rcpe : α → α) (a b : simd4f α) :
    vec4_div_vec4 .neon rcpe a b = vec4_mul_vec4 .neon a (vec4_recip .neon rcpe b)
    ∧ vec4_div_vec4 .sse rcpe a b = _mm_div_ps a b
    ∧ ∀ n : Fin 4, (vec4_div_vec4 .sse rcpe a b).lane n = a.lane n / b.lane n := by
  refine ⟨rfl, rfl, ?_⟩
  intro n
  fin_cases n <;> simp [vec4_div_vec4, _mm_div_ps, simd4f.zipWith, simd4f.lane]

/-- C3 as stated fails on the SSE branch: for lane value `1` with estimate
`4095/4096`, `vec4_recip` returns the estimate refined once, which is not the
estimate refined twice. -/
theorem vec4_recip_sse_ne_two_steps :
    (vec4_recip .sse rcpe_sample ⟨1, 2, 3, 4⟩).lane 0
      ≠ recip_step 1 (recip_step 1 (rcpe_sample 1)) := by
  norm_num [vec4_recip, _mm_rcp_ps, _mm_sub_ps, _mm_add_ps, _mm_mul_ps, simd4f.zipWith,
    simd4f.map, simd4f.lane, rcpe_sample, recip_step]

/-- C3 amended: each lane of `vec4_recip(x)` is the native estimate `e0` refined
by `e ↦ e * (2 - x*e)` exactly twice on the NEON branch and exactly once on the
SSE branch. -/
theorem vec4_recip_steps {α : Type} [Field α] (rcpe : α → α) (v : simd4f α) (n : Fin 4) :
    (vec4_recip .neon rcpe v).lane n
        = recip_step (v.lane n) (recip_step (v.lane n) (rcpe (v.lane n)))
    ∧ (vec4_recip .sse rcpe v).lane n = recip_step (v.lane n) (rcpe (v.lane n)) :=
  ⟨vec4_recip_neon_lane rcpe v n, vec4_recip_sse_lane rcpe v n⟩

/-- C6: on the NEON branch each refinement step squares the residual `1 - x*e`,
lane `n` of `vec4_div_vec4(v, v)` is `1 - (1 - x*e0)^4`, and when
`|1 - x*e0| ≤ 1e-3` the lane is within `2 * 2^-23` of 1. -/
theorem vec4_div_vec4_self_neon {α : Type} [LinearOrderedField α] (rcpe : α → α)
    (v : simd4f α) (n : Fin 4) (_hx : v.lane n ≠ 0) :
    (∀ e : α, 1 - v.lane n * recip_step (v.lane n) e = (1 - v.lane n * e) ^ 2)
    ∧ (vec4_div_vec4 .neon rcpe v v).lane n = 1 - (1 - v.lane n * rcpe (v.lane n)) ^ 4
    ∧ (|1 - v.lane n * rcpe (v.lane n)| ≤ 1 / 1000 →
        |(vec4_div_vec4 .neon rcpe v v).lane n - 1| ≤ 2 * (1 / 2 ^ 23)) := by
  have hlane : (vec4_div_vec4 .neon rcpe v v).lane n
      = 1 - (1 - v.lane n * rcpe (v.lane n)) ^ 4 := by
    fin_cases n <;>
      simp [vec4_div_vec4, vrecpeq_f32, vmulq_f32, vrecpsq_f32, simd4f.zipWith, simd4f.map,
        simd4f.lane] <;> ring
  refine ⟨fun e => by simp only [recip_step]; ring, hlane, ?_⟩
  intro h
  have h4 : |1 - v.lane n * rcpe (v.lane n)| ^ 4 ≤ (1 / 1000 : α) ^ 4 :=
    pow_le_pow_left₀ (abs_nonneg _) h 4
  have hnum : ((1 : α) / 1000) ^ 4 ≤ 2 * (1 / 2 ^ 23) := by norm_num
  rw [hlane]
  have habs : |1 - (1 - v.lane n * rcpe (v.lane n)) ^ 4 - 1|
      = |1 - v.lane n * rcpe (v.lane n)| ^ 4 := by
    rw [show (1 : α) - (1 - v.lane n * rcpe (v.lane n)) ^ 4 - 1
        = -((1 - v.lane n * rcpe (v.lane n)) ^ 4) by ring, abs_neg, abs_pow]
  rw [habs]
  exact le_trans h4 hnum

/-- C6 at `v = (1,2,3,4)`, lane 0, with the estimate of relative error `2^-12`. -/
theorem vec4_div_vec4_self_neon_witness :
    (⟨1, 2, 3, 4⟩ : simd4f ℚ).lane 0 ≠ 0
    ∧ |1 - (⟨1, 2, 3, 4⟩ : simd4f ℚ).lane 0 * rcpe_sample ((⟨1, 2, 3, 4⟩ : simd4f ℚ).lane 0)|
        ≤ 1 / 1000
    ∧ |(vec4_div_vec4 .neon rcpe_sample ⟨1, 2, 3, 4⟩ ⟨1, 2, 3, 4⟩).lane 0 - 1|
        ≤ 2 * (1 / 2 ^ 23) :=
  have h0 : (⟨1, 2, 3, 4⟩ : simd4f ℚ).lane 0 ≠ 0 := by norm_num [simd4f.lane]
  have h1 : |1 - (⟨1, 2, 3, 4⟩ : simd4f ℚ).lane 0
      * rcpe_sample ((⟨1, 2, 3, 4⟩ : simd4f ℚ).lane 0)| ≤ 1 / 1000 := by
    norm_num [simd4f.lane, rcpe_sample, abs_le]
  ⟨h0, h1, (vec4_div_vec4_self_neon rcpe_sample ⟨1, 2, 3, 4⟩ 0 h0).2.2 h1⟩

/-! ## Reciprocal square root -/

/-- C4 as stated fails: for lane value `1` with estimate `511/512`, `vec4_rsqrt`
returns the estimate refined once on either branch, which is not the estimate
refined twice. -/
theorem vec4_rsqrt_ne_two_steps :
    (vec4_rsqrt .neon rsqrte_sample ⟨1, 1, 1, 1⟩).lane 0
        ≠ rsqrt_step 1 (rsqrt_step 1 (rsqrte_sample 1))
    ∧ (vec4_rsqrt .sse rsqrte_sample ⟨1, 1, 1, 1⟩).lane 0
        ≠ rsqrt_step 1 (rsqrt_step 1 (rsqrte_sample 1)) := by
  constructor <;>
    norm_num [vec4_rsqrt, _mm_rsqrt_ps, _mm_sub_ps, _mm_add_ps, _mm_mul_ps, _mm_set1_ps,
      vrsqrteq_f32, vrsqrtsq_f32, vmulq_f32, simd4f.zipWith, simd4f.map, simd4f.lane,
      rsqrte_sample, rsqrt_step]

/-- C4 amended: on either branch each lane of `vec4_rsqrt(x)` is the native
estimate `r0` refined by `r ↦ r * (1.5 - 0.5*x*r^2)` exactly once. -/
theorem vec4_rsqrt_one_step {α : Type} [LinearOrderedField α] (bk : Backend) (rsqrte : α → α)
    (v : simd4f α) (n : Fin 4) :
    (vec4_rsqrt bk rsqrte v).lane n = rsqrt_step (v.lane n) (rsqrte (v.lane n)) :=
  vec4_rsqrt_lane bk rsqrte v n

/-- C5 as stated fails: at lane value `1` the estimate `1.001` has relative
error `1e-3`, yet `r = vec4_rsqrt(1)` has `|r*r*1 - 1| > 1e-6` (it is about
`3.001e-6`), and `s = vec4_sqrt(1)` has `|s*s - 1| > 1e-6 * 1`. -/
theorem vec4_rsqrt_residual_exceeds_1e6 :
    (0 : ℝ) < 1
    ∧ |(1001 / 1000 : ℝ) - 1 / Real.sqrt 1| ≤ 1 / 1000 * (1 / Real.sqrt 1)
    ∧ ¬ |(vec4_rsqrt .neon (fun _ : ℝ => 1001 / 1000) ⟨1, 1, 1, 1⟩).lane 0
          * (vec4_rsqrt .neon (fun _ : ℝ => 1001 / 1000) ⟨1, 1, 1, 1⟩).lane 0 * 1 - 1|
        ≤ 1 / 1000000
    ∧ ¬ |(vec4_sqrt .neon (fun _ : ℝ => 1001 / 1000) ⟨1, 1, 1, 1⟩).lane 0
          * (vec4_sqrt .neon (fun _ : ℝ => 1001 / 1000) ⟨1, 1, 1, 1⟩).lane 0 - 1|
        ≤ 1 / 1000000 * 1 := by
  refine ⟨by norm_num, ?_, ?_, ?_⟩
  · rw [Real.sqrt_one]; norm_num [abs_le]
  · rw [vec4_rsqrt_lane]
    norm_num [simd4f.lane, rsqrt_step, abs_le]
  · rw [vec4_sqrt_lane, vec4_rsqrt_lane]
    norm_num [simd4f.lane, rsqrt_step, abs_le]

/-- C5 amended: for a lane value `x > 0` whose native estimate `r0` has relative
error at most `1e-3` with respect to `1/sqrt(x)`, on either branch
`r = vec4_rsqrt(x)` satisfies `|r*r*x - 1| ≤ 3.01e-6` and `s = vec4_sqrt(x) = x*r`
satisfies `|s*s - x| ≤ 3.01e-6 * x` (exact real arithmetic). -/
theorem vec4_rsqrt_residual_bound (bk : Backend) (rsqrte : ℝ → ℝ) (v : simd4f ℝ) (n : Fin 4)
    (hx : 0 < v.lane n)
    (he : |rsqrte (v.lane n) - 1 / Real.sqrt (v.lane n)|
        ≤ 1 / 1000 * (1 / Real.sqrt (v.lane n))) :
    |(vec4_rsqrt bk rsqrte v).lane n * (vec4_rsqrt bk rsqrte v).lane n * v.lane n - 1|
        ≤ 301 / 100000000
    ∧ (vec4_sqrt bk rsqrte v).lane n = v.lane n * (vec4_rsqrt bk rsqrte v).lane n
    ∧ |(vec4_sqrt bk rsqrte v).lane n * (vec4_sqrt bk rsqrte v).lane n - v.lane n|
        ≤ 301 / 100000000 * v.lane n := by
  have hr := rsqrt_step_residual (v.lane n) (rsqrte (v.lane n)) hx he
  rw [← vec4_rsqrt_lane bk rsqrte v n] at hr
  refine ⟨hr, vec4_sqrt_lane bk rsqrte v n, ?_⟩
  rw [vec4_sqrt_lane]
  generalize (vec4_rsqrt bk rsqrte v).lane n = r at hr
  have hfac : v.lane n * r * (v.lane n * r) - v.lane n = v.lane n * (r * r * v.lane n - 1) := by
    ring
  rw [hfac, abs_mul, abs_of_pos hx, mul_comm]
  exact mul_le_mul_of_nonneg_right hr hx.le

/-- C5 amended, at lane value `1` with the estimate `1.001`. -/
theorem vec4_rsqrt_residual_bound_witness :
    (0 : ℝ) < (⟨1, 1, 1, 1⟩ : simd4f ℝ).lane 0
    ∧ |(fun _ : ℝ => (1001 / 1000 : ℝ)) ((⟨1, 1, 1, 1⟩ : simd4f ℝ).lane 0)
          - 1 / Real.sqrt ((⟨1, 1, 1, 1⟩ : simd4f ℝ).lane 0)|
        ≤ 1 / 1000 * (1 / Real.sqrt ((⟨1, 1, 1, 1⟩ : simd4f ℝ).lane 0))
    ∧ |(vec4_rsqrt .neon (fun _ : ℝ => 1001 / 1000) ⟨1, 1, 1, 1⟩).lane 0
          * (vec4_rsqrt .neon (fun _ : ℝ => 1001 / 1000) ⟨1, 1, 1, 1⟩).lane 0
          * (⟨1, 1, 1, 1⟩ : simd4f ℝ).lane 0 - 1|
        ≤ 301 / 100000000 :=
  have h0 : (0 : ℝ) < (⟨1, 1, 1, 1⟩ : simd4f ℝ).lane 0 := by norm_num [simd4f.lane]
  have h1 : |(fun _ : ℝ => (1001 / 1000 : ℝ)) ((⟨1, 1, 1, 1⟩ : simd4f ℝ).lane 0)
      - 1 / Real.sqrt ((⟨1, 1, 1, 1⟩ : simd4f ℝ).lane 0)|
      ≤ 1 / 1000 * (1 / Real.sqrt ((⟨1, 1, 1, 1⟩ : simd4f ℝ).lane 0)) := by
    have hl : (⟨1, 1, 1, 1⟩ : simd4f ℝ).lane 0 = 1 := rfl
    rw [hl, Real.sqrt_one]; norm_num [abs_le]
  ⟨h0, h1, (vec4_rsqrt_residual_bound .neon (fun _ : ℝ => 1001 / 1000) ⟨1, 1, 1, 1⟩ 0 h0 h1).1⟩

/-! ## Horizontal reductions -/

/-- C7: `dot4_float(a, b)` is `sum_xyzw_float` of the lane-wise product and
`dot3_float(a, b)` is `sum_xyz_float` of it; over exact arithmetic they are
`a.x*b.x + a.y*b.y + a.z*b.z + a.w*b.w` and `a.x*b.x + a.y*b.y + a.z*b.z`;
`dot4((1,0,0,0),(0,1,0,0)) = 0`, `dot4((1,2,3,4),(1,2,3,4)) = 30` and `dot3` of
the same pair is 14. -/
theorem dot_float_eq_sum_of_product {α : Type} [Add α] [Mul α] [Zero α] (a b : simd4f α)
    {β : Type} [CommRing β] (c d : simd4f β) :
    dot4_float a b = sum_xyzw_float (vec4_mul_vec4 .neon a b)
    ∧ dot3_float a b = sum_xyz_float (vec4_mul_vec4 .neon a b)
    ∧ dot4_float c d = c.x * d.x + c.y * d.y + c.z * d.z + c.w * d.w
    ∧ dot3_float c d = c.x * d.x + c.y * d.y + c.z * d.z
    ∧ dot4_float (⟨1, 0, 0, 0⟩ : simd4f ℚ) ⟨0, 1, 0, 0⟩ = 0
    ∧ dot4_float (⟨1, 2, 3, 4⟩ : simd4f ℚ) ⟨1, 2, 3, 4⟩ = 30
    ∧ dot3_float (⟨1, 2, 3, 4⟩ : simd4f ℚ) ⟨1, 2, 3, 4⟩ = 14 := by
  refine ⟨rfl, rfl, ?_, ?_, ?_, ?_, ?_⟩
  · simp only [dot4_float, sum_xyzw_float, vmulq_f32, simd4f.zipWith, vadd_f32, vget_high_f32,
      vget_low_f32, vpadd_f32, vget_lane_f32]
    ring
  · simp only [dot3_float, sum_xyz_float, sum_xyzw_float, vsetq_lane_f32, vmulq_f32,
      simd4f.zipWith, vadd_f32, vget_high_f32, vget_low_f32, vpadd_f32, vget_lane_f32]
    ring
  · norm_num [dot4_float, sum_xyzw_float, vmulq_f32, simd4f.zipWith, vadd_f32, vget_high_f32,
      vget_low_f32, vpadd_f32, vget_lane_f32]
  · norm_num [dot4_float, sum_xyzw_float, vmulq_f32, simd4f.zipWith, vadd_f32, vget_high_f32,
      vget_low_f32, vpadd_f32, vget_lane_f32]
  · norm_num [dot3_float, sum_xyz_float, sum_xyzw_float, vsetq_lane_f32, vmulq_f32,
      simd4f.zipWith, vadd_f32, vget_high_f32, vget_low_f32, vpadd_f32, vget_lane_f32]

/-- C8: `sum_xyz_float(v)` is `sum_xyzw_float` of `v` with lane w replaced by 0
and lanes x, y, z unchanged; over exact arithmetic it is `v.x + v.y + v.z`
whatever `v.w` is; `sum3((1,2,3,4)) = 6`. -/
theorem sum_xyz_float_zeroes_w {α : Type} [Add α] [Zero α] (v : simd4f α)
    {β : Type} [AddCommMonoid β] (u : simd4f β) :
    sum_xyz_float v = sum_xyzw_float ⟨v.x, v.y, v.z, 0⟩
    ∧ sum_xyz_float u = u.x + u.y + u.z
    ∧ (∀ w : β, sum_xyz_float ⟨u.x, u.y, u.z, w⟩ = u.x + u.y + u.z)
    ∧ sum_xyz_float (⟨1, 2, 3, 4⟩ : simd4f ℚ) = 6 := by
  have h : ∀ t : simd4f β, sum_xyz_float t = t.x + t.y + t.z := by
    intro t
    simp only [sum_xyz_float, sum_xyzw_float, vsetq_lane_f32, vadd_f32, vget_high_f32,
      vget_low_f32, vpadd_f32, vget_lane_f32, zero_add]
    rw [add_comm t.z t.x, add_assoc, add_comm t.z t.y, ← add_assoc]
  refine ⟨rfl, h u, fun w => h ⟨u.x, u.y, u.z, w⟩, ?_⟩
  norm_num [sum_xyz_float, sum_xyzw_float, vsetq_lane_f32, vadd_f32, vget_high_f32,
    vget_low_f32, vpadd_f32, vget_lane_f32]

/-- C9: `sum_xyzw_float((x, y, z, w))` is computed as `(z + x) + (w + y)`: the
high half added to the low half, the two lanes of that pair-added, lane 0
taken; over exact arithmetic this is `x + y + z + w`; `sum4((1,2,3,4)) = 10`. -/
theorem sum_xyzw_float_pairwise {α : Type} [Add α] (v : simd4f α)
    {β : Type} [AddCommSemigroup β] (u : simd4f β) :
    sum_xyzw_float v = (v.z + v.x) + (v.w + v.y)
    ∧ vadd_f32 (vget_high_f32 v) (vget_low_f32 v) = ⟨v.z + v.x, v.w + v.y⟩
    ∧ sum_xyzw_float u = u.x + u.y + u.z + u.w
    ∧ sum_xyzw_float (⟨1, 2, 3, 4⟩ : simd4f ℚ) = 10 := by
  refine ⟨rfl, rfl, ?_, ?_⟩
  · simp only [sum_xyzw_float, vadd_f32, vget_high_f32, vget_low_f32, vpadd_f32, vget_lane_f32]
    rw [add_comm u.z u.x, add_comm u.w u.y, add_assoc u.x u.z, ← add_assoc u.z u.y u.w,
      add_comm u.z u.y, add_assoc u.y u.z u.w, ← add_assoc u.x u.y, ← add_assoc]
  · norm_num [sum_xyzw_float, vadd_f32, vget_high_f32, vget_low_f32, vpadd_f32, vget_lane_f32]

/-- C10: the 3-component operations do not depend on lane w of their
arguments: if `a`, `a2` agree on lanes x, y, z and `b`, `b2` agree on lanes
x, y, z, then `dot3_float`, `dot3_ps`, `vec3_length_sq_float`,
`vec3_length_float` give equal results and `vec3_normalize(a)`,
`vec3_normalize(a2)` agree on lanes x, y, z. -/
theorem vec3_ops_ignore_w {α : Type} [Field α] (bk : Backend) (rsqrte : α → α)
    (a a2 b b2 : simd4f α)
    (ha : a.x = a2.x ∧ a.y = a2.y ∧ a.z = a2.z) (hb : b.x = b2.x ∧ b.y = b2.y ∧ b.z = b2.z) :
    dot3_float a b = dot3_float a2 b2
    ∧ dot3_ps a b = dot3_ps a2 b2
    ∧ vec3_length_sq_float a = vec3_length_sq_float a2
    ∧ vec3_length_float bk rsqrte a = vec3_length_float bk rsqrte a2
    ∧ (vec3_normalize bk rsqrte a).x = (vec3_normalize bk rsqrte a2).x
    ∧ (vec3_normalize bk rsqrte a).y = (vec3_normalize bk rsqrte a2).y
    ∧ (vec3_normalize bk rsqrte a).z = (vec3_normalize bk rsqrte a2).z := by
  obtain ⟨hax, hay, haz⟩ := ha
  obtain ⟨hbx, hby, hbz⟩ := hb
  have hdot : ∀ p p2 q q2 : simd4f α, p.x = p2.x → p.y = p2.y → p.z = p2.z →
      q.x = q2.x → q.y = q2.y → q.z = q2.z → dot3_float p q = dot3_float p2 q2 := by
    intro p p2 q q2 h1 h2 h3 h4 h5 h6
    simp only [dot3_float, sum_xyz_float, sum_xyzw_float, vsetq_lane_f32, vmulq_f32,
      simd4f.zipWith, vadd_f32, vget_high_f32, vget_low_f32, vpadd_f32, vget_lane_f32,
      h1, h2, h3, h4, h5, h6]
  have hab := hdot a a2 b b2 hax hay haz hbx hby hbz
  have haa := hdot a a2 a a2 hax hay haz hax hay haz
  have hps : dot3_ps a a = dot3_ps a2 a2 := by simp only [dot3_ps, haa]
  refine ⟨hab, by simp only [dot3_ps, hab], haa, ?_, ?_, ?_, ?_⟩
  · simp only [vec3_length_float, hps]
  · cases bk <;> simp [vec3_normalize, vec3_length_sq_ps, hps, mul_ps, vmulq_f32, _mm_mul_ps,
      simd4f.zipWith, hax]
  · cases bk <;> simp [vec3_normalize, vec3_length_sq_ps, hps, mul_ps, vmulq_f32, _mm_mul_ps,
      simd4f.zipWith, hay]
  · cases bk <;> simp [vec3_normalize, vec3_length_sq_ps, hps, mul_ps, vmulq_f32, _mm_mul_ps,
      simd4f.zipWith, haz]

/-- C10 at `a = (1,2,3,4)`, `a2 = (1,2,3,99)`, `b = (5,6,7,8)`, `b2 = (5,6,7,-3)`. -/
theorem vec3_ops_ignore_w_witness :
    ((⟨1, 2, 3, 4⟩ : simd4f ℚ).x = (⟨1, 2, 3, 99⟩ : simd4f ℚ).x
      ∧ (⟨1, 2, 3, 4⟩ : simd4f ℚ).y = (⟨1, 2, 3, 99⟩ : simd4f ℚ).y
      ∧ (⟨1, 2, 3, 4⟩ : simd4f ℚ).z = (⟨1, 2, 3, 99⟩ : simd4f ℚ).z)
    ∧ ((⟨5, 6, 7, 8⟩ : simd4f ℚ).x = (⟨5, 6, 7, -3⟩ : simd4f ℚ).x
      ∧ (⟨5, 6, 7, 8⟩ : simd4f ℚ).y = (⟨5, 6, 7, -3⟩ : simd4f ℚ).y
      ∧ (⟨5, 6, 7, 8⟩ : simd4f ℚ).z = (⟨5, 6, 7, -3⟩ : simd4f ℚ).z)
    ∧ dot3_float (⟨1, 2, 3, 4⟩ : simd4f ℚ) ⟨5, 6, 7, 8⟩
        = dot3_float (⟨1, 2, 3, 99⟩ : simd4f ℚ) ⟨5, 6, 7, -3⟩
    ∧ vec3_length_float .neon rsqrte_sample (⟨1, 2, 3, 4⟩ : simd4f ℚ)
        = vec3_length_float .neon rsqrte_sample (⟨1, 2, 3, 99⟩ : simd4f ℚ) :=
  have h := vec3_ops_ignore_w .neon rsqrte_sample (⟨1, 2, 3, 4⟩ : simd4f ℚ) ⟨1, 2, 3, 99⟩
    ⟨5, 6, 7, 8⟩ ⟨5, 6, 7, -3⟩ ⟨rfl, rfl, rfl⟩ ⟨rfl, rfl, rfl⟩
  ⟨⟨rfl, rfl, rfl⟩, ⟨rfl, rfl, rfl⟩, h.1, h.2.2.2.1⟩

/-! ## Lane permutation: arbitrary indices and composition -/

/-- C18: the NEON `vec4_permute` validates nothing: for every `int` index `i`
the table base is `4 * (i mod 64)`, base + 3 is at most 255, and the output lane
is lane `i mod 64` of `v` when `i mod 64 < 4` and the all-zero lane otherwise;
every output byte is 0 or a byte of `v`. -/
theorem vec4_permute_any_index (v : simd4f Nat) (hv : v.wellFormed) (i j k l : Int) :
    index_base i = 4 * (i % 64).toNat
    ∧ index_base i + 3 ≤ 255
    ∧ vec4_permute v i j k l
        = ⟨lane_or_zero v (i % 64).toNat, lane_or_zero v (j % 64).toNat,
           lane_or_zero v (k % 64).toNat, lane_or_zero v (l % 64).toNat⟩
    ∧ (∀ m : Nat, m < 4 → lane_or_zero v m = v.lane (Fin.ofNat m))
    ∧ (∀ m : Nat, 4 ≤ m → lane_or_zero v m = 0)
    ∧ (∀ m n : Fin 4, (simd4f_bytes (vec4_permute v i j k l)).getD (4 * m.val + n.val) 0 = 0
        ∨ ∃ q : Fin 4, (simd4f_bytes (vec4_permute v i j k l)).getD (4 * m.val + n.val) 0
            = (simd4f_bytes v).getD (4 * q.val + n.val) 0) := by
  have hI := index_base_eq i
  have heq : vec4_permute v i j k l
      = ⟨lane_or_zero v (i % 64).toNat, lane_or_zero v (j % 64).toNat,
         lane_or_zero v (k % 64).toNat, lane_or_zero v (l % 64).toNat⟩ := by
    ext
    · exact vec4_permute_x_any v hv i j k l
    · exact vec4_permute_y_any v hv i j k l
    · exact vec4_permute_z_any v hv i j k l
    · exact vec4_permute_w_any v hv i j k l
  have h3 : 4 * (i % 64).toNat + 3 ≤ 255 := by omega
  refine ⟨hI, by rw [hI]; exact h3, heq, ?_, ?_, ?_⟩
  · intro m hm
    interval_cases m <;> rfl
  · intro m hm
    have : ¬ m < 4 := by omega
    simp [lane_or_zero, this]
  · intro m n
    rw [heq, simd4f_bytes_getD]
    fin_cases m
    · exact laneBytes_lane_or_zero v _ n
    · exact laneBytes_lane_or_zero v _ n
    · exact laneBytes_lane_or_zero v _ n
    · exact laneBytes_lane_or_zero v _ n

/-- C18 at `(1,2,3,4)` with indices `-1, 4, 67, 65`: lanes 0 and 1 are zero,
lane 2 is lane 3 of `v` and lane 3 is lane 1 of `v`. -/
theorem vec4_permute_any_index_witness :
    bits_1234.wellFormed
    ∧ vec4_permute bits_1234 (-1) 4 67 65 = ⟨0, 0, 0x40800000, 0x40000000⟩ :=
  ⟨by decide, (vec4_permute_any_index bits_1234 (by decide) (-1) 4 67 65).2.2.1⟩

/-- C19: for indices in {0,1,2,3}, permuting by `a` and then by `b` is permuting
by `a[b0], a[b1], a[b2], a[b3]`; `vec4_permute(v, 0, 1, 2, 3) = v`; reversing
twice with `3, 2, 1, 0` returns `v`. -/
theorem vec4_permute_compose (v : simd4f Nat) (hv : v.wellFormed) (a b : Fin 4 → Fin 4) :
    vec4_permute (vec4_permute v ((a 0).val : Int) ((a 1).val : Int) ((a 2).val : Int)
        ((a 3).val : Int)) ((b 0).val : Int) ((b 1).val : Int) ((b 2).val : Int)
        ((b 3).val : Int)
      = vec4_permute v ((a (b 0)).val : Int) ((a (b 1)).val : Int) ((a (b 2)).val : Int)
          ((a (b 3)).val : Int)
    ∧ vec4_permute v 0 1 2 3 = v
    ∧ vec4_permute (vec4_permute v 3 2 1 0) 3 2 1 0 = v := by
  have hcomp : ∀ a b : Fin 4 → Fin 4,
      vec4_permute (vec4_permute v ((a 0).val : Int) ((a 1).val : Int) ((a 2).val : Int)
        ((a 3).val : Int)) ((b 0).val : Int) ((b 1).val : Int) ((b 2).val : Int)
        ((b 3).val : Int)
      = vec4_permute v ((a (b 0)).val : Int) ((a (b 1)).val : Int) ((a (b 2)).val : Int)
          ((a (b 3)).val : Int) := by
    intro a b
    have hw : (simd4f.mk (v.lane (a 0)) (v.lane (a 1)) (v.lane (a 2)) (v.lane (a 3))).wellFormed :=
      ⟨simd4f.wellFormed_lane v hv _, simd4f.wellFormed_lane v hv _,
        simd4f.wellFormed_lane v hv _, simd4f.wellFormed_lane v hv _⟩
    rw [vec4_permute_eq v hv (a 0) (a 1) (a 2) (a 3), vec4_permute_eq _ hw,
      vec4_permute_eq v hv]
    rw [simd4f.lane_mk (fun n => v.lane (a n)) (b 0), simd4f.lane_mk (fun n => v.lane (a n)) (b 1),
      simd4f.lane_mk (fun n => v.lane (a n)) (b 2), simd4f.lane_mk (fun n => v.lane (a n)) (b 3)]
  have hid : vec4_permute v 0 1 2 3 = v := vec4_permute_eq v hv 0 1 2 3
  refine ⟨hcomp a b, hid, ?_⟩
  have h := hcomp Fin.rev Fin.rev
  have e : vec4_permute (vec4_permute v 3 2 1 0) 3 2 1 0 = vec4_permute v 0 1 2 3 := h
  rw [e, hid]

/-- C19 at `(1,2,3,4)`: reversing twice returns the register. -/
theorem vec4_permute_compose_witness :
    bits_1234.wellFormed
    ∧ vec4_permute (vec4_permute bits_1234 3 2 1 0) 3 2 1 0 = bits_1234 :=
  ⟨by decide, (vec4_permute_compose bits_1234 (by decide) Fin.rev Fin.rev).2.2⟩

/-! ## Lengths and normalisation -/

/-- C11 as stated fails on binary32 lanes.  At `v = (0.5, 1.5, 1.5, 4.5)`, with
the estimate `409/2048` for `dot4(v, v) = 25`, NEON `vec4_normalize` scales by
`s = 3E4CCCA2` and `out.y * v.w = 3FACCCA9` differs from `out.w * v.y = 3FACCCA8`.
At `v = (3, 4, 0, 0)` the output lanes are `3F19997A` and `3F4CCCA2`, whose exact
products `out.x * 4` and `out.y * 3` differ. -/
theorem vec4_normalize_binary32_direction_changes :
    (vec4_rsqrt .neon vrsqrte_at_25 (vec4_length_sq_ps v_half_steps)).x.toBits = 0x3E4CCCA2
    ∧ (vec4_normalize .neon vrsqrte_at_25 v_half_steps).lane 1 * v_half_steps.lane 3
        ≠ (vec4_normalize .neon vrsqrte_at_25 v_half_steps).lane 3 * v_half_steps.lane 1
    ∧ ((vec4_normalize .neon vrsqrte_at_25 v_half_steps).lane 1 * v_half_steps.lane 3).toBits
        = 0x3FACCCA9
    ∧ ((vec4_normalize .neon vrsqrte_at_25 v_half_steps).lane 3 * v_half_steps.lane 1).toBits
        = 0x3FACCCA8
    ∧ (vec4_normalize .neon vrsqrte_at_25 v_3400).x.toBits = 0x3F19997A
    ∧ (vec4_normalize .neon vrsqrte_at_25 v_3400).y.toBits = 0x3F4CCCA2
    ∧ (vec4_normalize .neon vrsqrte_at_25 v_3400).x.toRat * v_3400.y.toRat
        ≠ (vec4_normalize .neon vrsqrte_at_25 v_3400).y.toRat * v_3400.x.toRat := by
  have hx : (vec4_normalize .neon vrsqrte_at_25 v_3400).x = ⟨5033149, -23⟩ := by decide
  have hy : (vec4_normalize .neon vrsqrte_at_25 v_3400).y = ⟨6710865, -23⟩ := by decide
  refine ⟨by decide, by decide, by decide, by decide, by decide, by decide, ?_⟩
  rw [hx, hy]
  norm_num [binary32.toRat, v_3400]

/-- C11 amended: `vec4_normalize(v)` is `v * vec4_rsqrt(vec4_length_sq_ps(v))`
lane-wise, the squared length is in all four lanes, and every lane of the result
is the one native product `v_n * s` for the single scalar `s` that `vec4_rsqrt`
gives for `dot4(v, v)` (any lane arithmetic); over exact arithmetic `s` is the
estimate refined once and `out_m * v_n = out_n * v_m` for every pair of lanes.
The same holds for `vec3_normalize` with `dot3(v, v)`, lane w included. -/
theorem normalize_scales_by_one_scalar {α : Type} [Add α] [Sub α] [Mul α] [Div α]
    [OfNat α (nat_lit 1)] [OfNat α (nat_lit 2)] [OfNat α (nat_lit 3)] [Zero α]
    (bk : Backend) (rsqrte : α → α) (v : simd4f α)
    {β : Type} [LinearOrderedField β] (rsqrte2 : β → β) (u : simd4f β) :
    vec4_normalize bk rsqrte v
        = vec4_mul_vec4 bk v (vec4_rsqrt bk rsqrte (vec4_length_sq_ps v))
    ∧ (∀ n : Fin 4, (vec4_length_sq_ps v).lane n = dot4_float v v)
    ∧ (∀ n : Fin 4, (vec4_normalize bk rsqrte v).lane n
        = v.lane n * (vec4_rsqrt bk rsqrte (vdupq_n_f32 (dot4_float v v))).lane 0)
    ∧ vec3_normalize bk rsqrte v
        = vec4_mul_vec4 bk v (vec4_rsqrt bk rsqrte (vec3_length_sq_ps v))
    ∧ (∀ n : Fin 4, (vec3_length_sq_ps v).lane n = dot3_float v v)
    ∧ (∀ n : Fin 4, (vec3_normalize bk rsqrte v).lane n
        = v.lane n * (vec4_rsqrt bk rsqrte (vdupq_n_f32 (dot3_float v v))).lane 0)
    ∧ (∀ n : Fin 4, (vec4_normalize bk rsqrte2 u).lane n
        = u.lane n * rsqrt_step (dot4_float u u) (rsqrte2 (dot4_float u u)))
    ∧ (∀ m n : Fin 4, (vec4_normalize bk rsqrte2 u).lane m * u.lane n
        = (vec4_normalize bk rsqrte2 u).lane n * u.lane m)
    ∧ (∀ n : Fin 4, (vec3_normalize bk rsqrte2 u).lane n
        = u.lane n * rsqrt_step (dot3_float u u) (rsqrte2 (dot3_float u u)))
    ∧ (∀ m n : Fin 4, (vec3_normalize bk rsqrte2 u).lane m * u.lane n
        = (vec3_normalize bk rsqrte2 u).lane n * u.lane m) := by
  have h4 : ∀ n : Fin 4, (vec4_normalize bk rsqrte2 u).lane n
      = u.lane n * rsqrt_step (dot4_float u u) (rsqrte2 (dot4_float u u)) := by
    intro n
    rw [vec4_normalize, mul_ps_lane, vec4_rsqrt_lane, vec4_length_sq_ps, dot4_ps, vdupq_n_f32_lane]
  have h3 : ∀ n : Fin 4, (vec3_normalize bk rsqrte2 u).lane n
      = u.lane n * rsqrt_step (dot3_float u u) (rsqrte2 (dot3_float u u)) := by
    intro n
    rw [vec3_normalize, mul_ps_lane, vec4_rsqrt_lane, vec3_length_sq_ps, dot3_ps, vdupq_n_f32_lane]
  refine ⟨by cases bk <;> rfl, fun n => vdupq_n_f32_lane _ n, ?_,
    by cases bk <;> rfl, fun n => vdupq_n_f32_lane _ n, ?_, h4, ?_, h3, ?_⟩
  · intro n
    rw [vec4_normalize, mul_ps_lane, vec4_length_sq_ps, dot4_ps, vec4_rsqrt_broadcast_lane]
  · intro n
    rw [vec3_normalize, mul_ps_lane, vec3_length_sq_ps, dot3_ps, vec4_rsqrt_broadcast_lane]
  · intro m n
    rw [h4 m, h4 n]; ring
  · intro m n
    rw [h3 m, h3 n]; ring

/-- C12: `vec4_length_float(v)` is `L * r` with `L = dot4_float(v, v) =
vec4_length_sq_float(v)` and `r` the lane `vec4_rsqrt` gives for `L`;
`vec3_length_float(v)` is the same with `L = dot3_float(v, v) =
vec3_length_sq_float(v)`; `vec4_length_ps(v)` is `vec4_sqrt(vec4_length_sq_ps(v))`
and `vec4_sqrt(x)` is `x * vec4_rsqrt(x)`. -/
theorem length_is_lengthsq_times_rsqrt {α : Type} [Field α] (bk : Backend) (rsqrte : α → α)
    (v x : simd4f α) :
    vec4_length_float bk rsqrte v
        = dot4_float v v * (vec4_rsqrt bk rsqrte (vdupq_n_f32 (dot4_float v v))).lane 0
    ∧ vec4_length_sq_float v = dot4_float v v
    ∧ vec3_length_float bk rsqrte v
        = dot3_float v v * (vec4_rsqrt bk rsqrte (vdupq_n_f32 (dot3_float v v))).lane 0
    ∧ vec3_length_sq_float v = dot3_float v v
    ∧ vec4_length_ps bk rsqrte v = vec4_sqrt bk rsqrte (vec4_length_sq_ps v)
    ∧ vec3_length_ps bk rsqrte v = vec4_sqrt bk rsqrte (vec3_length_sq_ps v)
    ∧ vec4_sqrt bk rsqrte x = vec4_mul_vec4 bk x (vec4_rsqrt bk rsqrte x) := by
  refine ⟨?_, rfl, ?_, rfl, rfl, rfl, by cases bk <;> rfl⟩
  · rw [vec4_length_float, SIMD4F_TO_FLOAT_lane, vec4_sqrt_lane, dot4_ps, vdupq_n_f32_lane]
  · rw [vec3_length_float, SIMD4F_TO_FLOAT_lane, vec4_sqrt_lane, dot3_ps, vdupq_n_f32_lane]

/-- C14: the broadcast forms carry the scalar result in every lane: each lane of
`dot4_ps`, `dot3_ps`, `vec4_length_sq_ps`, `vec3_length_sq_ps`, `vec4_length_ps`,
`vec3_length_ps` equals `dot4_float`, `dot3_float`, `vec4_length_sq_float`,
`vec3_length_sq_float`, `vec4_length_float`, `vec3_length_float`. -/
theorem broadcast_forms_carry_scalar {α : Type} [Field α] (bk : Backend) (rsqrte : α → α)
    (a b v : simd4f α) (n : Fin 4) :
    (dot4_ps a b).lane n = dot4_float a b
    ∧ (dot3_ps a b).lane n = dot3_float a b
    ∧ (vec4_length_sq_ps v).lane n = vec4_length_sq_float v
    ∧ (vec3_length_sq_ps v).lane n = vec3_length_sq_float v
    ∧ (vec4_length_ps bk rsqrte v).lane n = vec4_length_float bk rsqrte v
    ∧ (vec3_length_ps bk rsqrte v).lane n = vec3_length_float bk rsqrte v := by
  refine ⟨vdupq_n_f32_lane _ n, vdupq_n_f32_lane _ n, vdupq_n_f32_lane _ n,
    vdupq_n_f32_lane _ n, ?_, ?_⟩
  · rw [vec4_length_ps, vec4_length_float, SIMD4F_TO_FLOAT_lane, dot4_ps,
      vec4_sqrt_broadcast_lane, vec4_sqrt_broadcast_lane]
  · rw [vec3_length_ps, vec3_length_float, SIMD4F_TO_FLOAT_lane, dot3_ps,
      vec4_sqrt_broadcast_lane, vec4_sqrt_broadcast_lane]

/-! ## Scalar forms of the arithmetic primitives -/

/-- C13: on both branches each scalar form is the vector form applied to the
scalar broadcast to all four lanes, in the stated operand order; lane `n` of
`float_sub_vec4(f, v)` is `f - v_n`. -/
theorem scalar_forms_broadcast {α : Type} [Field α] (bk : Backend) (rcpe : α → α)
    (v : simd4f α) (f : α) :
    vec4_add_float bk v f = vec4_add_vec4 bk v ⟨f, f, f, f⟩
    ∧ vec4_sub_float bk v f = vec4_sub_vec4 bk v ⟨f, f, f, f⟩
    ∧ float_sub_vec4 bk f v = vec4_sub_vec4 bk ⟨f, f, f, f⟩ v
    ∧ (∀ n : Fin 4, (float_sub_vec4 bk f v).lane n = f - v.lane n)
    ∧ vec4_mul_float bk v f = vec4_mul_vec4 bk v ⟨f, f, f, f⟩
    ∧ vec4_div_float bk rcpe v f = vec4_div_vec4 bk rcpe v ⟨f, f, f, f⟩
    ∧ float_div_vec4 bk rcpe f v = vec4_div_vec4 bk rcpe ⟨f, f, f, f⟩ v := by
  refine ⟨by cases bk <;> rfl, by cases bk <;> rfl, by cases bk <;> rfl, ?_,
    by cases bk <;> rfl, by cases bk <;> rfl, by cases bk <;> rfl⟩
  intro n
  cases bk <;> fin_cases n <;> rfl

/-- C15: lane `n` of `vec4_add_float(v, f)` is `v_n + f` and lane `n` of
`vec4_mul_float(v, f)` is `v_n * f`, one native operation each; hence
`vec4_add_float(v, 0) = v` and `vec4_mul_float(v, 1) = v` in every lane. -/
theorem add_zero_mul_one_exact {α : Type} [Add α] [Mul α] (bk : Backend) (u : simd4f α) (f : α)
    {β : Type} [AddZeroClass β] [MulOneClass β] (v : simd4f β) :
    (∀ n : Fin 4, (vec4_add_float bk u f).lane n = u.lane n + f)
    ∧ (∀ n : Fin 4, (vec4_mul_float bk u f).lane n = u.lane n * f)
    ∧ vec4_add_float bk v 0 = v
    ∧ vec4_mul_float bk v 1 = v := by
  refine ⟨?_, ?_, ?_, ?_⟩
  · intro n; cases bk <;> fin_cases n <;> rfl
  · intro n; cases bk <;> fin_cases n <;> rfl
  · cases bk <;>
      simp [vec4_add_float, _mm_add_ps, _mm_set1_ps, vaddq_f32, vdupq_n_f32, simd4f.zipWith]
  · cases bk <;>
      simp [vec4_mul_float, _mm_mul_ps, _mm_set1_ps, vmulq_f32, vdupq_n_f32, simd4f.zipWith]

/-! ## Agreement of the two branches -/

/-- C17: for the same estimate the SSE refinement `e + 0.5*(e - x*e^3)` and the
NEON refinement `vrsqrts(r*r, x) * r` give the same `vec4_rsqrt`, both equal to
`r0 * (1.5 - 0.5*x*r0^2)`; the SSE reciprocal step `2*e - x*e^2` equals
`e * (2 - x*e)`. -/
theorem sse_neon_refinements_agree {α : Type} [LinearOrderedField α] (rsqrte rcpe : α → α)
    (v : simd4f α) (n : Fin 4) :
    (vec4_rsqrt .sse rsqrte v).lane n
        = rsqrte (v.lane n)
          + 1 / 2 * (rsqrte (v.lane n) - v.lane n * (rsqrte (v.lane n) * rsqrte (v.lane n)
              * rsqrte (v.lane n)))
    ∧ (vec4_rsqrt .neon rsqrte v).lane n
        = (3 - rsqrte (v.lane n) * rsqrte (v.lane n) * v.lane n) / 2 * rsqrte (v.lane n)
    ∧ vec4_rsqrt .sse rsqrte v = vec4_rsqrt .neon rsqrte v
    ∧ (vec4_rsqrt .sse rsqrte v).lane n = rsqrt_step (v.lane n) (rsqrte (v.lane n))
    ∧ (vec4_rsqrt .neon rsqrte v).lane n = rsqrt_step (v.lane n) (rsqrte (v.lane n))
    ∧ (vec4_recip .sse rcpe v).lane n
        = rcpe (v.lane n) + rcpe (v.lane n) - v.lane n * (rcpe (v.lane n) * rcpe (v.lane n))
    ∧ (vec4_recip .sse rcpe v).lane n = recip_step (v.lane n) (rcpe (v.lane n)) := by
  refine ⟨?_, ?_, ?_, vec4_rsqrt_lane .sse rsqrte v n, vec4_rsqrt_lane .neon rsqrte v n, ?_,
    vec4_recip_sse_lane rcpe v n⟩
  · fin_cases n <;> rfl
  · fin_cases n <;> rfl
  · ext
    · exact (vec4_rsqrt_lane .sse rsqrte v 0).trans (vec4_rsqrt_lane .neon rsqrte v 0).symm
    · exact (vec4_rsqrt_lane .sse rsqrte v 1).trans (vec4_rsqrt_lane .neon rsqrte v 1).symm
    · exact (vec4_rsqrt_lane .sse rsqrte v 2).trans (vec4_rsqrt_lane .neon rsqrte v 2).symm
    · exact (vec4_rsqrt_lane .sse rsqrte v 3).trans (vec4_rsqrt_lane .neon rsqrte v 3).symm
  · fin_cases n <;> rfl

/-! ## Exact estimates -/

/-- C20: an exact estimate is a fixed point of the refinement on both branches:
if `x * e0 = 1` then `vec4_recip` returns `e0` for that lane; if `x * r0^2 = 1`
then `vec4_rsqrt` returns `r0` and `vec4_sqrt(x)^2 = x`; and if the estimate is
exact at `dot4(v, v) ≠ 0` then `vec4_normalize(v)` has `dot4` with itself 1. -/
theorem exact_estimate_fixed_point {α : Type} [LinearOrderedField α] (bk : Backend)
    (rcpe rsqrte : α → α) (v : simd4f α) (n : Fin 4) :
    (v.lane n * rcpe (v.lane n) = 1 → (vec4_recip bk rcpe v).lane n = rcpe (v.lane n))
    ∧ (v.lane n * rsqrte (v.lane n) ^ 2 = 1 →
        (vec4_rsqrt bk rsqrte v).lane n = rsqrte (v.lane n)
        ∧ (vec4_sqrt bk rsqrte v).lane n ^ 2 = v.lane n)
    ∧ (dot4_float v v ≠ 0 → dot4_float v v * rsqrte (dot4_float v v) ^ 2 = 1 →
        dot4_float (vec4_normalize bk rsqrte v) (vec4_normalize bk rsqrte v) = 1) := by
  refine ⟨?_, ?_, ?_⟩
  · intro h
    cases bk
    · rw [vec4_recip_sse_lane, recip_step_fixed _ _ h]
    · rw [vec4_recip_neon_lane, recip_step_fixed _ _ h, recip_step_fixed _ _ h]
  · intro h
    have hr : (vec4_rsqrt bk rsqrte v).lane n = rsqrte (v.lane n) := by
      rw [vec4_rsqrt_lane, rsqrt_step_fixed _ _ h]
    refine ⟨hr, ?_⟩
    rw [vec4_sqrt_lane, hr]
    calc (v.lane n * rsqrte (v.lane n)) ^ 2
        = v.lane n * (v.lane n * rsqrte (v.lane n) ^ 2) := by ring
      _ = v.lane n := by rw [h, mul_one]
  · intro _ h
    have hx := vec4_normalize_lane bk rsqrte v 0
    have hy := vec4_normalize_lane bk rsqrte v 1
    have hz := vec4_normalize_lane bk rsqrte v 2
    have hw := vec4_normalize_lane bk rsqrte v 3
    rw [rsqrt_step_fixed _ _ h] at hx hy hz hw
    have hd := dot4_float_sum v v
    rw [dot4_float_sum (vec4_normalize bk rsqrte v) (vec4_normalize bk rsqrte v)]
    change (vec4_normalize bk rsqrte v).lane 0 * (vec4_normalize bk rsqrte v).lane 0
      + (vec4_normalize bk rsqrte v).lane 1 * (vec4_normalize bk rsqrte v).lane 1
      + (vec4_normalize bk rsqrte v).lane 2 * (vec4_normalize bk rsqrte v).lane 2
      + (vec4_normalize bk rsqrte v).lane 3 * (vec4_normalize bk rsqrte v).lane 3 = 1
    rw [hx, hy, hz, hw]
    change v.x * _ * (v.x * _) + v.y * _ * (v.y * _) + v.z * _ * (v.z * _)
      + v.w * _ * (v.w * _) = 1
    generalize rsqrte (dot4_float v v) = r at h ⊢
    calc v.x * r * (v.x * r) + v.y * r * (v.y * r) + v.z * r * (v.z * r) + v.w * r * (v.w * r)
        = (v.x * v.x + v.y * v.y + v.z * v.z + v.w * v.w) * r ^ 2 := by ring
      _ = 1 := by rw [← hd, h]

/-- C20 at `v = (4,3,0,0)`, lane 0, with estimates exact at 4 and at
`dot4(v, v) = 25`. -/
theorem exact_estimate_fixed_point_witness :
    ((⟨4, 3, 0, 0⟩ : simd4f ℚ).lane 0 * rcpe_exact_sample ((⟨4, 3, 0, 0⟩ : simd4f ℚ).lane 0) = 1
      ∧ (vec4_recip .neon rcpe_exact_sample ⟨4, 3, 0, 0⟩).lane 0
          = rcpe_exact_sample ((⟨4, 3, 0, 0⟩ : simd4f ℚ).lane 0))
    ∧ ((⟨4, 3, 0, 0⟩ : simd4f ℚ).lane 0
          * rsqrte_exact_sample ((⟨4, 3, 0, 0⟩ : simd4f ℚ).lane 0) ^ 2 = 1
      ∧ (vec4_sqrt .neon rsqrte_exact_sample ⟨4, 3, 0, 0⟩).lane 0 ^ 2
          = (⟨4, 3, 0, 0⟩ : simd4f ℚ).lane 0)
    ∧ (dot4_float (⟨4, 3, 0, 0⟩ : simd4f ℚ) ⟨4, 3, 0, 0⟩ ≠ 0
      ∧ dot4_float (⟨4, 3, 0, 0⟩ : simd4f ℚ) ⟨4, 3, 0, 0⟩
          * rsqrte_exact_sample (dot4_float (⟨4, 3, 0, 0⟩ : simd4f ℚ) ⟨4, 3, 0, 0⟩) ^ 2 = 1
      ∧ dot4_float (vec4_normalize .neon rsqrte_exact_sample (⟨4, 3, 0, 0⟩ : simd4f ℚ))
          (vec4_normalize .neon rsqrte_exact_sample ⟨4, 3, 0, 0⟩) = 1) :=
  have hd : dot4_float (⟨4, 3, 0, 0⟩ : simd4f ℚ) ⟨4, 3, 0, 0⟩ = 25 := by
    rw [dot4_float_sum]; norm_num
  have h1 : (⟨4, 3, 0, 0⟩ : simd4f ℚ).lane 0
      * rcpe_exact_sample ((⟨4, 3, 0, 0⟩ : simd4f ℚ).lane 0) = 1 := by
    norm_num [simd4f.lane, rcpe_exact_sample]
  have h2 : (⟨4, 3, 0, 0⟩ : simd4f ℚ).lane 0
      * rsqrte_exact_sample ((⟨4, 3, 0, 0⟩ : simd4f ℚ).lane 0) ^ 2 = 1 := by
    norm_num [simd4f.lane, rsqrte_exact_sample]
  have h3 : dot4_float (⟨4, 3, 0, 0⟩ : simd4f ℚ) ⟨4, 3, 0, 0⟩ ≠ 0 := by
    rw [hd]; norm_num
  have h4 : dot4_float (⟨4, 3, 0, 0⟩ : simd4f ℚ) ⟨4, 3, 0, 0⟩
      * rsqrte_exact_sample (dot4_float (⟨4, 3, 0, 0⟩ : simd4f ℚ) ⟨4, 3, 0, 0⟩) ^ 2 = 1 := by
    rw [hd]; norm_num [rsqrte_exact_sample]
  ⟨⟨h1, (exact_estimate_fixed_point .neon rcpe_exact_sample rsqrte_exact_sample
      ⟨4, 3, 0, 0⟩ 0).1 h1⟩,
    ⟨h2, ((exact_estimate_fixed_point .neon rcpe_exact_sample rsqrte_exact_sample
      ⟨4, 3, 0, 0⟩ 0).2.1 h2).2⟩,
    ⟨h3, h4, (exact_estimate_fixed_point .neon rcpe_exact_sample rsqrte_exact_sample
      ⟨4, 3, 0, 0⟩ 0).2.2 h3 h4⟩⟩

/-! ## Debug formatting -/

/-- C16: for bytes `b0 .. b15` of a register (`b0` at the lowest address)
`ToString` returns `"["`, then `b15 .. b8` as two upper-case hex digits each
joined by `", "`, then `" | "`, then `b7 .. b0` joined by `", "`, then `"]"`;
the result has 65 characters and the bytes can be read back from it. -/
theorem ToString_hex_dump (b : Fin 16 → Fin 256) :
    ToString (register_of_bytes b) = hexDump_spec b
    ∧ (ToString (register_of_bytes b)).length = 65
    ∧ bytesOfDump (ToString (register_of_bytes b)) = register_of_bytes b := by
  have e : ToString (register_of_bytes b) = hexDump_spec b := by
    simp [ToString, register_of_bytes, hexDump_spec, fmt_02X_byte, List.intercalate]
  refine ⟨e, ?_, ?_⟩
  · rw [e]; simp [hexDump_spec, hex2, String.length, List.intercalate]
  · rw [e]
    simp [hexDump_spec, hex2, bytesOfDump, byteAt, List.intercalate, register_of_bytes,
      byte_of_hex2]

end MathGeoLib
